import Mathlib

/-!
Verification of the Trusted localStorage accessor library.

The development shallowly embeds src/src/Trusted.ts: JavaScript runtime
values are modelled by `JSVal` (numbers as integers), the backing store
(localStorage) by an association list of string keys to string values,
and the two revisions of the accessor's set closure present in the file
by `setOp1` (earlier revision, no truthiness guards) and `setOp2` (later
revision, guarded by `value &&`).  The get closure and the creation-time
configuration checks are identical in both revisions and are embedded
once (`getOp`, `createAccessor`).  Functions that may throw are embedded
with `Option`/`Except` results; the environment's JSON codec and Date
ISO formatting are modelled executably further below.
-/

namespace Trusted

mutual

/-- JavaScript runtime values, with numbers modelled as integers.
Arrays, objects, Maps and Sets carry their contents as the mutual list
types below (JS Maps and Sets are insertion-ordered). -/
inductive JSVal where
  | vundef
  | vnull
  | vbool (b : Bool)
  | vnum (n : Int)
  | vstr (s : String)
  | varr (xs : JSList)
  | vobj (fields : JSFields)
  | vmap (entries : JSPairs)
  | vset (elems : JSList)
deriving DecidableEq

/-- A list of JS values (array elements, set elements). -/
inductive JSList where
  | nil
  | cons (x : JSVal) (xs : JSList)
deriving DecidableEq

/-- Ordered object fields: string keys with JS values. -/
inductive JSFields where
  | fnil
  | fcons (k : String) (v : JSVal) (rest : JSFields)
deriving DecidableEq

/-- Ordered Map entries: key-value pairs of JS values. -/
inductive JSPairs where
  | pnil
  | pcons (k v : JSVal) (rest : JSPairs)
deriving DecidableEq

end

open JSVal

/-- JavaScript truthiness: undefined, null, false, 0 and the empty string
are falsy; objects (arrays, maps, sets) are always truthy. -/
def truthy : JSVal → Bool
  | vundef => false
  | vnull => false
  | vbool b => b
  | vnum n => n != 0
  | vstr s => s != ""
  | varr _ => true
  | vobj _ => true
  | vmap _ => true
  | vset _ => true

/-- The JavaScript test typeof v === String. -/
def isString : JSVal → Bool
  | vstr _ => true
  | _ => false

/-- The string payload of a string value (only used under an isString guard). -/
def asString : JSVal → String
  | vstr s => s
  | _ => ""

/-- The backing store: an association list from keys to stored strings,
with at most one entry per key maintained by the operations. -/
def Store := List (String × String)

instance : DecidableEq Store := by
  unfold Store
  infer_instance

/-- localStorage.getItem: the stored string, or none when absent. -/
def Store.getItem : Store → String → Option String
  | [], _ => none
  | (k0, v0) :: rest, k => if k0 == k then some v0 else Store.getItem rest k

/-- localStorage.setItem: replace the entry at the key, or append it. -/
def Store.setItem (store : Store) (k v : String) : Store :=
  match store with
  | [] => [(k, v)]
  | (k0, v0) :: rest =>
    if k0 == k then (k, v) :: rest else (k0, v0) :: Store.setItem rest k v

/-- localStorage.removeItem: delete the entry at the key. -/
def Store.removeItem : Store → String → Store
  | [], _ => []
  | (k0, v0) :: rest, k =>
    if k0 == k then Store.removeItem rest k
    else (k0, v0) :: Store.removeItem rest k

/-- A validator as seen by the accessor: JS functions may throw, so the
result is an Option, with none standing for a thrown exception. -/
def Validator := JSVal → Option Bool

/-- An unmarshal function: string to value, possibly throwing. -/
def Unmarshal := String → Option JSVal

/-- A marshal function: value to string (total in all uses modelled here). -/
def Marshal := JSVal → String

/-- The options record accepted by Trusted.accessor.  A missing
defaultValue is JavaScript undefined.  The yupSchema field is modelled by
its isValidSync check. -/
structure AccessorOptions where
  key : String
  defaultValue : JSVal := vundef
  yupSchema : Option Validator := none
  validate : Option Validator := none
  skipRegistration : Bool := false
  unmarshal : Option Unmarshal := none
  marshal : Option Marshal := none

/-- The state of one Trusted root: its namespace and registered keys. -/
structure TrustedState where
  nsp : String := ""
  registeredKeys : List String := []

/-- The configuration captured by the closures returned from accessor. -/
structure Config where
  key : String
  defaultValue : JSVal
  validate : Option Validator
  marshal : Option Marshal
  unmarshal : Option Unmarshal

/-- Errors thrown during accessor creation.  The source throws plain
Error objects; the constructors stand for the distinct messages.  A
validator that itself throws while checking the default propagates as
that exception (validatorThrew). -/
inductive CreateError where
  | invalidDefault
  | missingMarshal
  | duplicateKey
  | validatorThrew
deriving DecidableEq

/-- The effective validator: options.validate when given, else one derived
from options.yupSchema, else none (the destructuring default in accessor). -/
def effectiveValidate (o : AccessorOptions) : Option Validator :=
  match o.validate with
  | some f => some f
  | none => o.yupSchema

/-- The two configuration checks at the top of accessor, before key
registration: the invalid-default check and the missing-marshal check.
Both are guarded by the truthiness of defaultValue, exactly as in the
source (if (defaultValue && ...)). -/
def configCheckError (o : AccessorOptions) : Option CreateError :=
  if truthy o.defaultValue then
    match effectiveValidate o with
    | some f =>
      match f o.defaultValue with
      | none => some CreateError.validatorThrew
      | some true =>
        if !(isString o.defaultValue) && o.marshal.isNone then
          some CreateError.missingMarshal
        else none
      | some false => some CreateError.invalidDefault
    | none =>
      if !(isString o.defaultValue) && o.marshal.isNone then
        some CreateError.missingMarshal
      else none
  else none

/-- Trusted.accessor: resolve the key, run the configuration checks,
register the key unless skipped, and return the captured configuration
together with the updated root state. -/
def createAccessor (st : TrustedState) (o : AccessorOptions) :
    Except CreateError (Config × TrustedState) :=
  let key := st.nsp ++ o.key
  match configCheckError o with
  | some e => Except.error e
  | none =>
    if o.skipRegistration then
      Except.ok
        (⟨key, o.defaultValue, effectiveValidate o, o.marshal, o.unmarshal⟩, st)
    else if st.registeredKeys.contains key then
      Except.error CreateError.duplicateKey
    else
      Except.ok
        (⟨key, o.defaultValue, effectiveValidate o, o.marshal, o.unmarshal⟩,
         ⟨st.nsp, key :: st.registeredKeys⟩)

/-- Whether a stored value passes the config's validator (a throwing
validator counts as not passing, landing in the catch block). -/
def validatePasses (c : Config) (v : JSVal) : Bool :=
  match c.validate with
  | some f => f v == some true
  | none => true

/-- The try block of get on a raw stored string: none when any step
throws (absent is handled by the caller; the empty string is falsy and
throws Item-not-found; unmarshal may throw; a failing or throwing
validator throws). -/
def readValue (c : Config) (s : String) : Option JSVal :=
  if s == "" then none
  else
    match c.unmarshal with
    | some u =>
      match u s with
      | none => none
      | some v => if validatePasses c v then some v else none
    | none => if validatePasses c (vstr s) then some (vstr s) else none

/-- The catch block of get: repair the store from the default value. -/
def repairStore (c : Config) (store : Store) : Store :=
  match c.marshal, truthy c.defaultValue with
  | some m, true => store.setItem c.key (m c.defaultValue)
  | _, _ =>
    if isString c.defaultValue then store.setItem c.key (asString c.defaultValue)
    else if c.defaultValue == vundef then store.removeItem c.key
    else store

/-- The get closure (identical in both revisions): returns the value and
the possibly repaired store. -/
def getOp (c : Config) (store : Store) : JSVal × Store :=
  match store.getItem c.key with
  | none => (c.defaultValue, repairStore c store)
  | some s =>
    match readValue c s with
    | some v => (v, store)
    | none => (c.defaultValue, repairStore c store)

/-- The write step shared by the first revision's set closure:
marshal if present, else write strings directly, else warn and no-op. -/
def setWrite1 (c : Config) (store : Store) (v : JSVal) : Store :=
  match c.marshal with
  | some m => store.setItem c.key (m v)
  | none => if isString v then store.setItem c.key (asString v) else store

/-- The first revision's set closure (lines 112-126): validate then
write; none is a validator exception escaping set (set has no catch). -/
def setOp1 (c : Config) (store : Store) (v : JSVal) : Option Store :=
  match c.validate with
  | some f =>
    match f v with
    | none => none
    | some false => some store
    | some true => some (setWrite1 c store v)
  | none => some (setWrite1 c store v)

/-- The write step of the second revision's set closure: the marshal path
is additionally guarded by the truthiness of the value (marshal && value). -/
def setWrite2 (c : Config) (store : Store) (v : JSVal) : Store :=
  match c.marshal, truthy v with
  | some m, true => store.setItem c.key (m v)
  | _, _ => if isString v then store.setItem c.key (asString v) else store

/-- The second revision's set closure (lines 318-332): the validation
gate is additionally guarded by the truthiness of the value
(validate && value && !validate(value)). -/
def setOp2 (c : Config) (store : Store) (v : JSVal) : Option Store :=
  match c.validate with
  | some f =>
    if truthy v then
      match f v with
      | none => none
      | some false => some store
      | some true => some (setWrite2 c store v)
    else some (setWrite2 c store v)
  | none => some (setWrite2 c store v)

/-! (Accessor operations continue below; JSON round-trip support first.) -/

/-- The remove closure: delete the backing-store entry at the key. -/
def removeOp (c : Config) (store : Store) : Store :=
  store.removeItem c.key

/-- Trusted.unregisterKey via the unregister closure: release the key. -/
def unregisterOp (st : TrustedState) (c : Config) : TrustedState :=
  ⟨st.nsp, st.registeredKeys.filter (fun k => k != c.key)⟩

/-! ## The environment's JSON codec

The typed wrappers marshal through the runtime's JSON.stringify and
JSON.parse.  These are modelled executably over JSVal, faithful to the
JSON grammar the runtime emits (numbers as integers, strings with the
standard escapes, undefined rendered as null inside arrays and dropped
from objects, Maps and Sets rendered as empty objects). -/

/-- The decimal digit character for d below 10. -/
def digitChar (d : Nat) : Char := Char.ofNat (48 + d)

/-- The lowercase hexadecimal digit character for d below 16. -/
def hexDigitChar (d : Nat) : Char :=
  if d < 10 then Char.ofNat (48 + d) else Char.ofNat (87 + d)

/-- Decimal digit test on characters. -/
def isDigitCh (c : Char) : Bool := 48 ≤ c.toNat && c.toNat ≤ 57

/-- Hexadecimal digit test on characters (0-9, a-f, A-F). -/
def isHexCh (c : Char) : Bool :=
  (48 ≤ c.toNat && c.toNat ≤ 57) || (97 ≤ c.toNat && c.toNat ≤ 102) ||
    (65 ≤ c.toNat && c.toNat ≤ 70)

/-- Numeric value of a decimal digit character. -/
def digitVal (c : Char) : Nat := c.toNat - 48

/-- Numeric value of a hexadecimal digit character. -/
def hexVal (c : Char) : Nat :=
  if c.toNat ≤ 57 then c.toNat - 48
  else if c.toNat ≤ 70 then c.toNat - 55
  else c.toNat - 87

/-- Decimal rendering of a natural number, most significant digit first. -/
def natToChars (n : Nat) : List Char :=
  if n < 10 then [digitChar n]
  else natToChars (n / 10) ++ [digitChar (n % 10)]
termination_by n
decreasing_by exact Nat.div_lt_self (by omega) (by omega)

/-- Decimal rendering of an integer, with a leading minus when negative. -/
def intToChars (n : Int) : List Char :=
  if n < 0 then '-' :: natToChars n.natAbs else natToChars n.toNat

/-- JSON escape of one string character. -/
def escChar (c : Char) : List Char :=
  if c = '"' then ['\\', '"']
  else if c = '\\' then ['\\', '\\']
  else if c = '\n' then ['\\', 'n']
  else if c = '\r' then ['\\', 'r']
  else if c = '\t' then ['\\', 't']
  else if c.toNat = 8 then ['\\', 'b']
  else if c.toNat = 12 then ['\\', 'f']
  else if c.toNat < 32 then
    ['\\', 'u', '0', '0', hexDigitChar (c.toNat / 16), hexDigitChar (c.toNat % 16)]
  else [c]

/-- JSON escape of a character list. -/
def escapeList : List Char → List Char
  | [] => []
  | c :: cs => escChar c ++ escapeList cs

/-- A JSON string literal: quote, escaped characters, quote. -/
def printStr (s : String) : List Char := '"' :: (escapeList s.data ++ ['"'])

/-- Comma-join of rendered pieces. -/
def joinComma : List (List Char) → List Char
  | [] => []
  | [x] => x
  | x :: y :: rest => x ++ ',' :: joinComma (y :: rest)

/-- Drop object fields whose value is undefined (JSON.stringify drops
them). -/
def dropUndef : JSFields → JSFields
  | JSFields.fnil => JSFields.fnil
  | JSFields.fcons k v rest =>
    if v = vundef then dropUndef rest else JSFields.fcons k v (dropUndef rest)

mutual

/-- JSON.stringify of a value in array-element position: undefined
renders as null there; Maps, Sets render as empty objects. -/
def printVal : JSVal → List Char
  | vundef => ['n', 'u', 'l', 'l']
  | vnull => ['n', 'u', 'l', 'l']
  | vbool true => ['t', 'r', 'u', 'e']
  | vbool false => ['f', 'a', 'l', 's', 'e']
  | vnum n => intToChars n
  | vstr s => printStr s
  | varr xs => '[' :: (printList xs ++ [']'])
  | vobj fs => '{' :: (joinComma (printFieldsR fs) ++ ['}'])
  | vmap _ => ['{', '}']
  | vset _ => ['{', '}']

/-- Comma-separated rendering of array elements. -/
def printList : JSList → List Char
  | JSList.nil => []
  | JSList.cons x JSList.nil => printVal x
  | JSList.cons x (JSList.cons y ys) =>
    printVal x ++ ',' :: printList (JSList.cons y ys)

/-- Rendered object fields (undefined-valued fields dropped). -/
def printFieldsR : JSFields → List (List Char)
  | JSFields.fnil => []
  | JSFields.fcons k v rest =>
    if v = vundef then printFieldsR rest
    else (printStr k ++ ':' :: printVal v) :: printFieldsR rest

end

/-- JSON.stringify at top level: undefined has no JSON rendering (the
call returns undefined, not a string). -/
def jsonStringify (v : JSVal) : Option String :=
  match v with
  | vundef => none
  | _ => some (String.mk (printVal v))

/-- Decoding of a simple (non-u) escape character. -/
def escDecode (e : Char) : Option Char :=
  if e = '"' then some '"'
  else if e = '\\' then some '\\'
  else if e = '/' then some '/'
  else if e = 'n' then some '\n'
  else if e = 'r' then some '\r'
  else if e = 't' then some '\t'
  else if e = 'b' then some (Char.ofNat 8)
  else if e = 'f' then some (Char.ofNat 12)
  else none

/-- Body of a JSON string literal after the opening quote: the decoded
characters and the input after the closing quote.  A backslash-u escape
reads four hex digits; any other backslash escape goes through escDecode
(a backslash-u with fewer than four characters after it falls through to
the escDecode case and fails there). -/
def parseStrBody : List Char → Option (List Char × List Char)
  | [] => none
  | '\\' :: 'u' :: h1 :: h2 :: h3 :: h4 :: rest3 =>
    if isHexCh h1 && isHexCh h2 && isHexCh h3 && isHexCh h4 then
      (parseStrBody rest3).map (fun p =>
        (Char.ofNat (((hexVal h1 * 16 + hexVal h2) * 16 + hexVal h3) * 16
          + hexVal h4) :: p.1, p.2))
    else none
  | '\\' :: e :: rest2 =>
    (escDecode e).bind (fun d =>
      (parseStrBody rest2).map (fun p => (d :: p.1, p.2)))
  | c :: rest =>
    if c = '"' then some ([], rest)
    else if c = '\\' then none
    else (parseStrBody rest).map (fun p => (c :: p.1, p.2))

/-- Greedy decimal digits with an accumulator. -/
def parseNumAux : List Char → Nat → Nat × List Char
  | [], acc => (acc, [])
  | c :: rest, acc =>
    if isDigitCh c then parseNumAux rest (acc * 10 + digitVal c)
    else (acc, c :: rest)

/-- A decimal natural number: requires a leading digit. -/
def parseNum : List Char → Option (Nat × List Char)
  | [] => none
  | c :: rest =>
    if isDigitCh c then some (parseNumAux rest (digitVal c)) else none

/-- Match an expected literal character sequence. -/
def expectChars : List Char → List Char → Option (List Char)
  | [], cs => some cs
  | l :: ls, c :: cs => if c = l then expectChars ls cs else none
  | _ :: _, [] => none

mutual

/-- JSON.parse on one value, fuel-bounded (fuel strictly decreases on
every nested parse, so any fuel above the value's size suffices). -/
def parseVal : Nat → List Char → Option (JSVal × List Char)
  | 0, _ => none
  | _ + 1, [] => none
  | fuel + 1, c :: rest =>
    if c = 'n' then
      (expectChars ['u', 'l', 'l'] rest).map (fun r => (vnull, r))
    else if c = 't' then
      (expectChars ['r', 'u', 'e'] rest).map (fun r => (vbool true, r))
    else if c = 'f' then
      (expectChars ['a', 'l', 's', 'e'] rest).map (fun r => (vbool false, r))
    else if c = '"' then
      (parseStrBody rest).map (fun p => (vstr (String.mk p.1), p.2))
    else if c = '[' then
      match rest with
      | ']' :: r => some (varr JSList.nil, r)
      | _ =>
        match parseElems fuel rest with
        | some (xs, ']' :: r2) => some (varr xs, r2)
        | _ => none
    else if c = '{' then
      match rest with
      | '}' :: r => some (vobj JSFields.fnil, r)
      | _ =>
        match parseFields fuel rest with
        | some (fs, '}' :: r2) => some (vobj fs, r2)
        | _ => none
    else if c = '-' then
      (parseNum rest).map (fun p => (vnum (-(p.1 : Int)), p.2))
    else if isDigitCh c then
      (parseNum (c :: rest)).map (fun p => (vnum (p.1 : Int), p.2))
    else none

/-- One or more comma-separated values. -/
def parseElems : Nat → List Char → Option (JSList × List Char)
  | 0, _ => none
  | fuel + 1, cs =>
    match parseVal fuel cs with
    | none => none
    | some (v, r) =>
      match r with
      | ',' :: r2 =>
        (parseElems fuel r2).map (fun p => (JSList.cons v p.1, p.2))
      | _ => some (JSList.cons v JSList.nil, r)

/-- One or more comma-separated string-keyed fields. -/
def parseFields : Nat → List Char → Option (JSFields × List Char)
  | 0, _ => none
  | fuel + 1, cs =>
    match cs with
    | '"' :: cs2 =>
      match parseStrBody cs2 with
      | none => none
      | some (kcs, r) =>
        match r with
        | ':' :: r2 =>
          match parseVal fuel r2 with
          | none => none
          | some (v, r3) =>
            match r3 with
            | ',' :: r4 =>
              (parseFields fuel r4).map (fun p =>
                (JSFields.fcons (String.mk kcs) v p.1, p.2))
            | _ => some (JSFields.fcons (String.mk kcs) v JSFields.fnil, r3)
        | _ => none
    | _ => none

end

/-- JSON.parse: none models a thrown SyntaxError.  The whole input must
be one JSON value. -/
def jsonParse (s : String) : Option JSVal :=
  match parseVal (s.data.length + 1) s.data with
  | some (v, []) => some v
  | _ => none

theorem stringMk_data (s : String) : String.mk s.data = s := by
  cases s
  rfl

/-! ## Round-trip of the JSON codec: decimal numbers -/

theorem digitChar_toNat (d : Nat) (h : d < 10) : (digitChar d).toNat = 48 + d := by
  unfold digitChar
  interval_cases d <;> decide

theorem isDigitCh_digitChar (d : Nat) (h : d < 10) :
    isDigitCh (digitChar d) = true := by
  unfold isDigitCh digitChar
  interval_cases d <;> decide

theorem digitVal_digitChar (d : Nat) (h : d < 10) :
    digitVal (digitChar d) = d := by
  unfold digitVal digitChar
  interval_cases d <;> decide

/-- Value of a digit string continuing an accumulator. -/
def digitsVal (a : Nat) : List Char → Nat
  | [] => a
  | c :: cs => digitsVal (a * 10 + digitVal c) cs

@[simp] theorem digitsVal_nil (a : Nat) : digitsVal a [] = a := rfl

@[simp] theorem digitsVal_cons (a : Nat) (c : Char) (cs : List Char) :
    digitsVal a (c :: cs) = digitsVal (a * 10 + digitVal c) cs := rfl

@[simp] theorem parseNumAux_nil (a : Nat) : parseNumAux [] a = (a, []) := rfl

theorem parseNumAux_cons (c : Char) (cs : List Char) (a : Nat) :
    parseNumAux (c :: cs) a =
      if isDigitCh c then parseNumAux cs (a * 10 + digitVal c)
      else (a, c :: cs) := rfl

/-- All characters are decimal digits. -/
def allDigits : List Char → Bool
  | [] => true
  | c :: cs => isDigitCh c && allDigits cs

theorem allDigits_append (xs ys : List Char) :
    allDigits (xs ++ ys) = (allDigits xs && allDigits ys) := by
  induction xs with
  | nil => simp [allDigits]
  | cons c cs ih => simp [allDigits, ih, Bool.and_assoc]

theorem digitsVal_append (xs ys : List Char) :
    ∀ a, digitsVal a (xs ++ ys) = digitsVal (digitsVal a xs) ys := by
  induction xs with
  | nil => intro a; rfl
  | cons c cs ih =>
    intro a
    show digitsVal (a * 10 + digitVal c) (cs ++ ys) =
      digitsVal (digitsVal (a * 10 + digitVal c) cs) ys
    exact ih (a * 10 + digitVal c)

theorem natToChars_ne_nil (n : Nat) : natToChars n ≠ [] := by
  rw [natToChars]
  by_cases h : n < 10
  · rw [if_pos h]; simp
  · rw [if_neg h]; simp

theorem allDigits_natToChars (n : Nat) : allDigits (natToChars n) = true := by
  induction n using Nat.strong_induction_on with
  | _ n ih =>
    by_cases h : n < 10
    · rw [natToChars, if_pos h]
      simp [allDigits, isDigitCh_digitChar n h]
    · have hlt : n / 10 < n := Nat.div_lt_self (by omega) (by omega)
      rw [natToChars, if_neg h, allDigits_append]
      simp [ih (n / 10) hlt, allDigits,
        isDigitCh_digitChar (n % 10) (Nat.mod_lt n (by omega))]

theorem digitsVal_natToChars (n : Nat) :
    ∀ a, digitsVal a (natToChars n) = a * 10 ^ (natToChars n).length + n := by
  induction n using Nat.strong_induction_on with
  | _ n ih =>
    intro a
    by_cases h : n < 10
    · rw [natToChars, if_pos h]
      simp [digitVal_digitChar n h]
    · have hlt : n / 10 < n := Nat.div_lt_self (by omega) (by omega)
      conv_lhs => rw [natToChars, if_neg h]
      conv_rhs => rw [natToChars, if_neg h]
      rw [digitsVal_append, ih (n / 10) hlt a]
      have hmod : n % 10 < 10 := Nat.mod_lt n (by omega)
      simp only [digitsVal_cons, digitsVal_nil, digitVal_digitChar (n % 10) hmod,
        List.length_append, List.length_cons, List.length_nil]
      rw [pow_succ, ← mul_assoc]
      have hdm := Nat.div_add_mod n 10
      generalize a * 10 ^ (natToChars (n / 10)).length = B
      omega

/-- No leading decimal digit: where number parsing must stop. -/
def delimOk : List Char → Bool
  | [] => true
  | c :: _ => !isDigitCh c

theorem parseNumAux_digits (xs : List Char) (h : allDigits xs = true) :
    ∀ rest a, parseNumAux (xs ++ rest) a = parseNumAux rest (digitsVal a xs) := by
  induction xs with
  | nil => intro rest a; simp
  | cons c cs ih =>
    intro rest a
    simp only [allDigits, Bool.and_eq_true] at h
    rw [List.cons_append, parseNumAux_cons, if_pos h.1, ih h.2, digitsVal_cons]

theorem parseNumAux_stop (rest : List Char) (h : delimOk rest = true) (a : Nat) :
    parseNumAux rest a = (a, rest) := by
  cases rest with
  | nil => rfl
  | cons c cs =>
    simp only [delimOk, Bool.not_eq_eq_eq_not, Bool.not_true] at h
    rw [parseNumAux_cons, if_neg (by simp [h])]

theorem parseNum_cons (c : Char) (rest : List Char) :
    parseNum (c :: rest) =
      if isDigitCh c then some (parseNumAux rest (digitVal c)) else none := rfl

/-! ## JSON-representable values and sizes -/

mutual

/-- Values JSON.stringify/JSON.parse restore exactly: no undefined, no
Maps, Sets (or Dates, functions) anywhere. -/
def jsafe : JSVal → Bool
  | vundef => false
  | vnull => true
  | vbool _ => true
  | vnum _ => true
  | vstr _ => true
  | varr xs => jsafeList xs
  | vobj fs => jsafeFields fs
  | vmap _ => false
  | vset _ => false

/-- All elements JSON-representable. -/
def jsafeList : JSList → Bool
  | JSList.nil => true
  | JSList.cons x xs => jsafe x && jsafeList xs

/-- All field values JSON-representable. -/
def jsafeFields : JSFields → Bool
  | JSFields.fnil => true
  | JSFields.fcons _ v rest => jsafe v && jsafeFields rest

end

mutual

/-- Parser fuel bound for a value. -/
def jsize : JSVal → Nat
  | varr xs => jsizeList xs + 1
  | vobj fs => jsizeFields fs + 1
  | _ => 1

/-- Parser fuel bound for array elements. -/
def jsizeList : JSList → Nat
  | JSList.nil => 0
  | JSList.cons x xs => jsize x + jsizeList xs + 1

/-- Parser fuel bound for object fields. -/
def jsizeFields : JSFields → Nat
  | JSFields.fnil => 0
  | JSFields.fcons _ v rest => jsize v + jsizeFields rest + 1

end

theorem jsize_pos (v : JSVal) : 1 ≤ jsize v := by
  cases v <;> simp [jsize]

theorem jsafe_ne_vundef (v : JSVal) (h : jsafe v = true) : ¬ v = vundef := by
  intro hv
  rw [hv] at h
  exact absurd h (by simp [jsafe])

/-! ## Round-trip of the JSON codec: string escapes -/

theorem hexVal_hexDigitChar (d : Nat) (h : d < 16) :
    hexVal (hexDigitChar d) = d := by
  unfold hexVal hexDigitChar
  interval_cases d <;> decide

theorem isHexCh_hexDigitChar (d : Nat) (h : d < 16) :
    isHexCh (hexDigitChar d) = true := by
  unfold isHexCh hexDigitChar
  interval_cases d <;> decide

theorem parseStrBody_quote (rest : List Char) :
    parseStrBody ('"' :: rest) = some ([], rest) := by
  simp [parseStrBody]

theorem parseStrBody_other (c : Char) (rest : List Char)
    (h1 : ¬ c = '"') (h2 : ¬ c = '\\') :
    parseStrBody (c :: rest) =
      (parseStrBody rest).map (fun p => (c :: p.1, p.2)) := by
  cases rest with
  | nil => simp [parseStrBody, h1, h2]
  | cons c2 cs2 =>
    cases cs2 with
    | nil => simp [parseStrBody, h1, h2]
    | cons c3 cs3 => simp [parseStrBody, h1, h2]

theorem parseStrBody_esc (e : Char) (d : Char) (rest : List Char)
    (he : ¬ e = 'u') (hd : escDecode e = some d) :
    parseStrBody ('\\' :: e :: rest) =
      (parseStrBody rest).map (fun p => (d :: p.1, p.2)) := by
  cases rest with
  | nil => simp [parseStrBody, he, hd]
  | cons c2 cs2 => simp [parseStrBody, he, hd]

theorem parseStrBody_u (h1 h2 h3 h4 : Char) (rest : List Char)
    (hh1 : isHexCh h1 = true) (hh2 : isHexCh h2 = true)
    (hh3 : isHexCh h3 = true) (hh4 : isHexCh h4 = true) :
    parseStrBody ('\\' :: 'u' :: h1 :: h2 :: h3 :: h4 :: rest) =
      (parseStrBody rest).map (fun p =>
        (Char.ofNat (((hexVal h1 * 16 + hexVal h2) * 16 + hexVal h3) * 16
          + hexVal h4) :: p.1, p.2)) := by
  simp [parseStrBody, hh1, hh2, hh3, hh4]

theorem parseStrBody_escape (s : List Char) :
    ∀ rest, parseStrBody (escapeList s ++ '"' :: rest) = some (s, rest) := by
  induction s with
  | nil => intro rest; rw [escapeList, List.nil_append, parseStrBody_quote]
  | cons c cs ih =>
    intro rest
    rw [escapeList, List.append_assoc]
    by_cases hc1 : c = '"'
    · subst hc1
      rw [show escChar '"' = ['\\', '"'] from rfl]
      rw [List.cons_append, List.cons_append, List.nil_append,
        parseStrBody_esc '"' '"' _ (by decide) rfl, ih rest]
      rfl
    by_cases hc2 : c = '\\'
    · subst hc2
      rw [show escChar '\\' = ['\\', '\\'] from rfl]
      rw [List.cons_append, List.cons_append, List.nil_append,
        parseStrBody_esc '\\' '\\' _ (by decide) rfl, ih rest]
      rfl
    by_cases hc3 : c = '\n'
    · subst hc3
      rw [show escChar '\n' = ['\\', 'n'] from rfl]
      rw [List.cons_append, List.cons_append, List.nil_append,
        parseStrBody_esc 'n' '\n' _ (by decide) rfl, ih rest]
      rfl
    by_cases hc4 : c = '\r'
    · subst hc4
      rw [show escChar '\r' = ['\\', 'r'] from rfl]
      rw [List.cons_append, List.cons_append, List.nil_append,
        parseStrBody_esc 'r' '\r' _ (by decide) rfl, ih rest]
      rfl
    by_cases hc5 : c = '\t'
    · subst hc5
      rw [show escChar '\t' = ['\\', 't'] from rfl]
      rw [List.cons_append, List.cons_append, List.nil_append,
        parseStrBody_esc 't' '\t' _ (by decide) rfl, ih rest]
      rfl
    by_cases hc6 : c.toNat = 8
    · have hesc : escChar c = ['\\', 'b'] := by
        unfold escChar
        rw [if_neg hc1, if_neg hc2, if_neg hc3, if_neg hc4, if_neg hc5,
          if_pos hc6]
      have hcb : Char.ofNat 8 = c := by
        rw [← hc6, Char.ofNat_toNat]
      rw [hesc, List.cons_append, List.cons_append, List.nil_append,
        parseStrBody_esc 'b' (Char.ofNat 8) _ (by decide) rfl, ih rest, hcb]
      rfl
    by_cases hc7 : c.toNat = 12
    · have hesc : escChar c = ['\\', 'f'] := by
        unfold escChar
        rw [if_neg hc1, if_neg hc2, if_neg hc3, if_neg hc4, if_neg hc5,
          if_neg hc6, if_pos hc7]
      have hcb : Char.ofNat 12 = c := by
        rw [← hc7, Char.ofNat_toNat]
      rw [hesc, List.cons_append, List.cons_append, List.nil_append,
        parseStrBody_esc 'f' (Char.ofNat 12) _ (by decide) rfl, ih rest, hcb]
      rfl
    by_cases hc8 : c.toNat < 32
    · have hesc : escChar c =
          ['\\', 'u', '0', '0', hexDigitChar (c.toNat / 16),
            hexDigitChar (c.toNat % 16)] := by
        unfold escChar
        rw [if_neg hc1, if_neg hc2, if_neg hc3, if_neg hc4, if_neg hc5,
          if_neg hc6, if_neg hc7, if_pos hc8]
      have hdiv : c.toNat / 16 < 16 := by omega
      have hmod : c.toNat % 16 < 16 := by omega
      rw [hesc]
      simp only [List.cons_append, List.nil_append]
      rw [parseStrBody_u '0' '0' (hexDigitChar (c.toNat / 16))
        (hexDigitChar (c.toNat % 16)) _ (by decide) (by decide)
        (isHexCh_hexDigitChar _ hdiv) (isHexCh_hexDigitChar _ hmod), ih rest]
      have hv : ((hexVal '0' * 16 + hexVal '0') * 16 + hexVal (hexDigitChar (c.toNat / 16))) * 16
          + hexVal (hexDigitChar (c.toNat % 16)) = c.toNat := by
        rw [hexVal_hexDigitChar _ hdiv, hexVal_hexDigitChar _ hmod]
        have : hexVal '0' = 0 := by decide
        rw [this]
        omega
      rw [hv, Char.ofNat_toNat]
      rfl
    · have hesc : escChar c = [c] := by
        unfold escChar
        rw [if_neg hc1, if_neg hc2, if_neg hc3, if_neg hc4, if_neg hc5,
          if_neg hc6, if_neg hc7, if_neg hc8]
      rw [hesc, List.cons_append, List.nil_append,
        parseStrBody_other c _ hc1 hc2, ih rest]
      rfl

theorem parseNum_natToChars (n : Nat) (rest : List Char)
    (h : delimOk rest = true) :
    parseNum (natToChars n ++ rest) = some (n, rest) := by
  have hall := allDigits_natToChars n
  have hval := digitsVal_natToChars n 0
  cases hnc : natToChars n with
  | nil => exact absurd hnc (natToChars_ne_nil n)
  | cons c cs =>
    rw [hnc] at hall hval
    simp only [allDigits, Bool.and_eq_true] at hall
    rw [List.cons_append, parseNum_cons, if_pos hall.1]
    rw [parseNumAux_digits cs hall.2 rest (digitVal c),
      parseNumAux_stop rest h]
    simp only [digitsVal_cons, digitsVal_nil, Nat.zero_mul, Nat.zero_add] at hval
    rw [hval]

/-! ## Round-trip of the JSON codec: values -/

theorem natToChars_head_digit (n : Nat) (c : Char) (cs : List Char)
    (h : natToChars n = c :: cs) : isDigitCh c = true := by
  have hall := allDigits_natToChars n
  rw [h] at hall
  simp only [allDigits, Bool.and_eq_true] at hall
  exact hall.1

theorem intToChars_ne_nil (n : Int) : intToChars n ≠ [] := by
  unfold intToChars
  by_cases h : n < 0
  · rw [if_pos h]; simp
  · rw [if_neg h]; exact natToChars_ne_nil _

theorem printVal_ne_nil (v : JSVal) : printVal v ≠ [] := by
  cases v with
  | vundef => simp [printVal]
  | vnull => simp [printVal]
  | vbool b => cases b <;> simp [printVal]
  | vnum n => simpa [printVal] using intToChars_ne_nil n
  | vstr s => simp [printVal, printStr]
  | varr xs => simp [printVal]
  | vobj fs => simp [printVal]
  | vmap es => simp [printVal]
  | vset xs => simp [printVal]

theorem printVal_head_ne_rb (v : JSVal) (c : Char) (cs : List Char)
    (h : printVal v = c :: cs) : ¬ c = ']' := by
  cases v with
  | vundef => simp [printVal] at h; intro hc; rw [hc] at h; exact absurd h.1 (by decide)
  | vnull => simp [printVal] at h; intro hc; rw [hc] at h; exact absurd h.1 (by decide)
  | vbool b =>
    cases b <;> (simp [printVal] at h; intro hc; rw [hc] at h; exact absurd h.1 (by decide))
  | vnum n =>
    simp only [printVal] at h
    unfold intToChars at h
    by_cases hneg : n < 0
    · rw [if_pos hneg, List.cons.injEq] at h
      intro hc
      rw [hc] at h
      exact absurd h.1 (by decide)
    · rw [if_neg hneg] at h
      have hd := natToChars_head_digit n.toNat c cs h
      intro hc
      rw [hc] at hd
      exact absurd hd (by decide)
  | vstr s =>
    simp [printVal, printStr] at h
    intro hc; rw [hc] at h; exact absurd h.1 (by decide)
  | varr xs => simp [printVal] at h; intro hc; rw [hc] at h; exact absurd h.1 (by decide)
  | vobj fs => simp [printVal] at h; intro hc; rw [hc] at h; exact absurd h.1 (by decide)
  | vmap es => simp [printVal] at h; intro hc; rw [hc] at h; exact absurd h.1 (by decide)
  | vset xs => simp [printVal] at h; intro hc; rw [hc] at h; exact absurd h.1 (by decide)

theorem printList_cons_head (x : JSVal) (xs : JSList) :
    ∃ c cs, printList (JSList.cons x xs) = c :: cs ∧ ¬ c = ']' := by
  cases hpv : printVal x with
  | nil => exact absurd hpv (printVal_ne_nil x)
  | cons c cs =>
    have hc := printVal_head_ne_rb x c cs hpv
    cases xs with
    | nil => exact ⟨c, cs, by simp [printList, hpv], hc⟩
    | cons y ys =>
      exact ⟨c, cs ++ ',' :: printList (JSList.cons y ys),
        by simp [printList, hpv], hc⟩

theorem delimOk_cons (c : Char) (r : List Char) :
    delimOk (c :: r) = !isDigitCh c := rfl

theorem parseVal_digits (m : Nat) (k : Nat) (rest : List Char)
    (hdelim : delimOk rest = true) :
    parseVal (m + 1) (natToChars k ++ rest) = some (vnum (k : Int), rest) := by
  cases hnc : natToChars k with
  | nil => exact absurd hnc (natToChars_ne_nil k)
  | cons c cs =>
    have hd : isDigitCh c = true := natToChars_head_digit k c cs hnc
    have h1 : ¬ c = 'n' := by intro h; rw [h] at hd; exact absurd hd (by decide)
    have h2 : ¬ c = 't' := by intro h; rw [h] at hd; exact absurd hd (by decide)
    have h3 : ¬ c = 'f' := by intro h; rw [h] at hd; exact absurd hd (by decide)
    have h4 : ¬ c = '"' := by intro h; rw [h] at hd; exact absurd hd (by decide)
    have h5 : ¬ c = '[' := by intro h; rw [h] at hd; exact absurd hd (by decide)
    have h6 : ¬ c = '{' := by intro h; rw [h] at hd; exact absurd hd (by decide)
    have h7 : ¬ c = '-' := by intro h; rw [h] at hd; exact absurd hd (by decide)
    rw [List.cons_append]
    simp only [parseVal]
    rw [if_neg h1, if_neg h2, if_neg h3, if_neg h4, if_neg h5, if_neg h6,
      if_neg h7, if_pos hd, ← List.cons_append, ← hnc,
      parseNum_natToChars k rest hdelim]
    rfl

theorem parseElems_last (fuel : Nat) (body : List Char) (w : JSVal)
    (r3 : List Char) (hbody : parseVal fuel body = some (w, ']' :: r3)) :
    parseElems (fuel + 1) body = some (JSList.cons w JSList.nil, ']' :: r3) := by
  rw [parseElems, hbody]
  rfl

theorem parseElems_more (fuel : Nat) (body : List Char) (w : JSVal)
    (r4 : List Char) (hbody : parseVal fuel body = some (w, ',' :: r4)) :
    parseElems (fuel + 1) body =
      (parseElems fuel r4).map (fun p => (JSList.cons w p.1, p.2)) := by
  rw [parseElems, hbody]
  rfl

theorem parseFields_start (fuel : Nat) (kcs body : List Char) :
    parseFields (fuel + 1) ('"' :: (escapeList kcs ++ '"' :: ':' :: body)) =
      (match parseVal fuel body with
       | none => none
       | some (w, r3) =>
         match r3 with
         | ',' :: r4 =>
           (parseFields fuel r4).map (fun p =>
             (JSFields.fcons (String.mk kcs) w p.1, p.2))
         | _ => some (JSFields.fcons (String.mk kcs) w JSFields.fnil, r3)) := by
  rw [parseFields, parseStrBody_escape kcs (':' :: body)]
  rfl

theorem parseFields_done (fuel : Nat) (kcs body : List Char) (w : JSVal)
    (r3 : List Char) (hbody : parseVal fuel body = some (w, '}' :: r3)) :
    parseFields (fuel + 1) ('"' :: (escapeList kcs ++ '"' :: ':' :: body)) =
      some (JSFields.fcons (String.mk kcs) w JSFields.fnil, '}' :: r3) := by
  rw [parseFields_start, hbody]
  rfl

theorem parseFields_more (fuel : Nat) (kcs body : List Char) (w : JSVal)
    (r4 : List Char) (hbody : parseVal fuel body = some (w, ',' :: r4)) :
    parseFields (fuel + 1) ('"' :: (escapeList kcs ++ '"' :: ':' :: body)) =
      (parseFields fuel r4).map (fun p =>
        (JSFields.fcons (String.mk kcs) w p.1, p.2)) := by
  rw [parseFields_start, hbody]
  rfl

theorem parse_print (fuel : Nat) :
    (∀ v rest, jsafe v = true → jsize v ≤ fuel → delimOk rest = true →
      parseVal fuel (printVal v ++ rest) = some (v, rest)) ∧
    (∀ x xs rest, jsafe x = true → jsafeList xs = true →
      jsizeList (JSList.cons x xs) ≤ fuel →
      parseElems fuel (printList (JSList.cons x xs) ++ ']' :: rest) =
        some (JSList.cons x xs, ']' :: rest)) ∧
    (∀ k v fs rest, jsafe v = true → jsafeFields fs = true →
      jsizeFields (JSFields.fcons k v fs) ≤ fuel →
      parseFields fuel
          (joinComma (printFieldsR (JSFields.fcons k v fs)) ++ '}' :: rest) =
        some (JSFields.fcons k v fs, '}' :: rest)) := by
  induction fuel with
  | zero =>
    refine ⟨?_, ?_, ?_⟩
    · intro v rest _ hsize _
      have := jsize_pos v
      omega
    · intro x xs rest _ _ hsize
      simp only [jsizeList] at hsize
      omega
    · intro k v fs rest _ _ hsize
      simp only [jsizeFields] at hsize
      omega
  | succ m ih =>
    obtain ⟨ih1, ih2, ih3⟩ := ih
    have hdelimRB : ∀ r : List Char, delimOk (']' :: r) = true := by
      intro r; rw [delimOk_cons]; decide
    have hdelimComma : ∀ r : List Char, delimOk (',' :: r) = true := by
      intro r; rw [delimOk_cons]; decide
    have hdelimRC : ∀ r : List Char, delimOk ('}' :: r) = true := by
      intro r; rw [delimOk_cons]; decide
    refine ⟨?_, ?_, ?_⟩
    · intro v rest hsafe hsize hdelim
      cases v with
      | vundef => exact absurd hsafe (by simp [jsafe])
      | vnull => simp [printVal, parseVal, expectChars]
      | vbool b => cases b <;> simp [printVal, parseVal, expectChars]
      | vnum n =>
        by_cases hneg : n < 0
        · simp only [printVal]
          rw [intToChars, if_pos hneg, List.cons_append]
          simp only [parseVal]
          rw [if_neg (by decide), if_neg (by decide), if_neg (by decide),
            if_neg (by decide), if_neg (by decide), if_neg (by decide),
            parseNum_natToChars _ _ hdelim]
          simp only [if_true, Option.map_some', Option.some.injEq, Prod.mk.injEq,
            JSVal.vnum.injEq]
          exact ⟨by omega, trivial⟩
        · have hcast : ((n.toNat : Nat) : Int) = n := Int.toNat_of_nonneg (by omega)
          simp only [printVal]
          rw [intToChars, if_neg hneg, parseVal_digits m n.toNat rest hdelim, hcast]
      | vstr s =>
        simp only [printVal, printStr, List.cons_append, List.append_assoc,
          List.singleton_append, List.nil_append]
        simp only [parseVal]
        rw [if_neg (by decide), if_neg (by decide), if_neg (by decide),
          parseStrBody_escape s.data rest]
        simp [stringMk_data]
      | varr xs =>
        cases xs with
        | nil => simp [printVal, printList, parseVal]
        | cons x xs2 =>
          simp only [jsafe, jsafeList, Bool.and_eq_true] at hsafe
          simp only [jsize, jsizeList] at hsize
          obtain ⟨c, cs, hpl, hcne⟩ := printList_cons_head x xs2
          simp only [printVal, List.cons_append, List.append_assoc,
            List.singleton_append, List.nil_append]
          simp only [parseVal]
          rw [if_neg (by decide), if_neg (by decide), if_neg (by decide),
            if_neg (by decide)]
          simp only [if_true]
          have helems := ih2 x xs2 rest hsafe.1 hsafe.2
            (by simp only [jsizeList]; omega)
          rw [hpl, List.cons_append] at helems ⊢
          split
          · rename_i heq
            rw [List.cons.injEq] at heq
            exact absurd heq.1 hcne
          · rw [helems]
            rfl
      | vobj fs =>
        cases fs with
        | fnil => simp [printVal, printFieldsR, joinComma, parseVal]
        | fcons k v fs2 =>
          simp only [jsafe, jsafeFields, Bool.and_eq_true] at hsafe
          simp only [jsize, jsizeFields] at hsize
          have hfields := ih3 k v fs2 rest hsafe.1 hsafe.2
            (by simp only [jsizeFields]; omega)
          have hvund : ¬ v = vundef := jsafe_ne_vundef v hsafe.1
          simp only [printVal, List.cons_append, List.append_assoc,
            List.singleton_append, List.nil_append]
          simp only [parseVal]
          rw [if_neg (by decide), if_neg (by decide), if_neg (by decide),
            if_neg (by decide), if_neg (by decide)]
          simp only [if_true]
          have hshape : ∃ t, joinComma (printFieldsR (JSFields.fcons k v fs2)) =
              '"' :: t := by
            simp only [printFieldsR, if_neg hvund]
            cases printFieldsR fs2 with
            | nil =>
              simp [joinComma, printStr]
            | cons a l =>
              simp [joinComma, printStr]
          obtain ⟨t, ht⟩ := hshape
          rw [ht, List.cons_append] at hfields ⊢
          split
          · rename_i heq
            rw [List.cons.injEq] at heq
            exact absurd heq.1 (by decide)
          · rw [hfields]
            rfl
      | vmap es => exact absurd hsafe (by simp [jsafe])
      | vset xs => exact absurd hsafe (by simp [jsafe])
    · intro x xs rest hsx hsxs hsize
      simp only [jsizeList] at hsize
      rw [parseElems]
      cases xs with
      | nil =>
        have hv := ih1 x (']' :: rest) hsx (by omega) (hdelimRB rest)
        simp only [printList]
        rw [hv]
        rfl
      | cons y ys =>
        simp only [jsafeList, Bool.and_eq_true] at hsxs
        have hy1 := jsize_pos x
        simp only [jsizeList] at hsize
        have hv := ih1 x (',' :: (printList (JSList.cons y ys) ++ ']' :: rest))
          hsx (by omega) (hdelimComma _)
        have htail := ih2 y ys rest hsxs.1 hsxs.2 (by simp [jsizeList]; omega)
        simp only [printList, List.append_assoc, List.cons_append]
        rw [hv]
        show Option.map (fun p => (JSList.cons x p.1, p.2))
            (parseElems m (printList (JSList.cons y ys) ++ ']' :: rest)) =
          some (JSList.cons x (JSList.cons y ys), ']' :: rest)
        rw [htail]
        rfl
    · intro k v fs rest hsv hsfs hsize
      simp only [jsizeFields] at hsize
      have hvund : ¬ v = vundef := jsafe_ne_vundef v hsv
      cases fs with
      | fnil =>
        simp only [printFieldsR, if_neg hvund, joinComma, printStr,
          List.cons_append, List.append_assoc, List.singleton_append,
          List.nil_append]
        have hv := ih1 v ('}' :: rest) hsv (by omega) (hdelimRC rest)
        rw [parseFields_done m k.data (printVal v ++ '}' :: rest) v rest hv,
          stringMk_data]
      | fcons k2 v2 fs2 =>
        simp only [jsafeFields, Bool.and_eq_true] at hsfs
        simp only [jsizeFields] at hsize
        have hvp := jsize_pos v
        have hv2und : ¬ v2 = vundef := jsafe_ne_vundef v2 hsfs.1
        have htail := ih3 k2 v2 fs2 rest hsfs.1 hsfs.2
          (by simp only [jsizeFields]; omega)
        have hbt : ∃ b t, printFieldsR (JSFields.fcons k2 v2 fs2) = b :: t := by
          simp only [printFieldsR, if_neg hv2und]
          exact ⟨_, _, rfl⟩
        obtain ⟨b, t, hbt⟩ := hbt
        have hunf : joinComma (printFieldsR
            (JSFields.fcons k v (JSFields.fcons k2 v2 fs2))) =
            (printStr k ++ ':' :: printVal v) ++
              ',' :: joinComma (printFieldsR (JSFields.fcons k2 v2 fs2)) := by
          have h1 : printFieldsR (JSFields.fcons k v (JSFields.fcons k2 v2 fs2)) =
              (printStr k ++ ':' :: printVal v) ::
                printFieldsR (JSFields.fcons k2 v2 fs2) := by
            simp only [printFieldsR, if_neg hvund]
          rw [h1, hbt, joinComma]
        rw [hunf]
        simp only [printStr, List.cons_append, List.append_assoc,
          List.singleton_append, List.nil_append]
        have hv := ih1 v
          (',' :: (joinComma (printFieldsR (JSFields.fcons k2 v2 fs2)) ++
            '}' :: rest)) hsv (by omega) (hdelimComma _)
        rw [parseFields_more m k.data _ v _ hv, htail, stringMk_data]
        rfl

theorem printFieldsR_nil_size (fs : JSFields) (hs : jsafeFields fs = true)
    (h : printFieldsR fs = []) : jsizeFields fs = 0 := by
  cases fs with
  | fnil => rfl
  | fcons k v rest =>
    simp only [jsafeFields, Bool.and_eq_true] at hs
    simp only [printFieldsR, if_neg (jsafe_ne_vundef v hs.1)] at h
    exact absurd h (by simp)

theorem jsize_le_len (fuel : Nat) :
    (∀ v, jsafe v = true → jsize v ≤ fuel → jsize v ≤ (printVal v).length) ∧
    (∀ xs, jsafeList xs = true → jsizeList xs ≤ fuel →
      jsizeList xs ≤ (printList xs).length + 1) ∧
    (∀ fs, jsafeFields fs = true → jsizeFields fs ≤ fuel →
      jsizeFields fs ≤ (joinComma (printFieldsR fs)).length + 1) := by
  induction fuel with
  | zero =>
    refine ⟨?_, ?_, ?_⟩
    · intro v _ hsize
      have := jsize_pos v
      omega
    · intro xs _ hsize
      cases xs with
      | nil => simp [jsizeList]
      | cons x xs2 => simp only [jsizeList] at hsize; omega
    · intro fs _ hsize
      cases fs with
      | fnil => simp [jsizeFields]
      | fcons k v rest => simp only [jsizeFields] at hsize; omega
  | succ m ih =>
    obtain ⟨ih1, ih2, ih3⟩ := ih
    refine ⟨?_, ?_, ?_⟩
    · intro v hsafe hsize
      cases v with
      | vundef => exact absurd hsafe (by simp [jsafe])
      | vnull => simp [jsize, printVal]
      | vbool b => cases b <;> simp [jsize, printVal]
      | vnum n =>
        have hlen : 0 < (intToChars n).length :=
          List.length_pos.mpr (intToChars_ne_nil n)
        simp only [jsize, printVal]
        omega
      | vstr s => simp [jsize, printVal, printStr]
      | varr xs =>
        simp only [jsafe] at hsafe
        simp only [jsize] at hsize ⊢
        have h2 := ih2 xs hsafe (by omega)
        simp only [printVal, List.length_cons, List.length_append,
          List.length_singleton]
        omega
      | vobj fs =>
        simp only [jsafe] at hsafe
        simp only [jsize] at hsize ⊢
        have h3 := ih3 fs hsafe (by omega)
        simp only [printVal, List.length_cons, List.length_append,
          List.length_singleton]
        omega
      | vmap es => exact absurd hsafe (by simp [jsafe])
      | vset xs => exact absurd hsafe (by simp [jsafe])
    · intro xs hsafe hsize
      cases xs with
      | nil => simp [jsizeList]
      | cons x xs2 =>
        simp only [jsafeList, Bool.and_eq_true] at hsafe
        simp only [jsizeList] at hsize ⊢
        have h1 := ih1 x hsafe.1 (by omega)
        cases xs2 with
        | nil =>
          simp only [printList, jsizeList]
          omega
        | cons y ys =>
          have h2 := ih2 (JSList.cons y ys) hsafe.2 (by
            simp only [jsizeList] at hsize ⊢
            omega)
          simp only [printList, List.length_append, List.length_cons] at h2 ⊢
          simp only [jsizeList] at h2 hsize ⊢
          omega
    · intro fs hsafe hsize
      cases fs with
      | fnil => simp [jsizeFields]
      | fcons k v fs2 =>
        simp only [jsafeFields, Bool.and_eq_true] at hsafe
        simp only [jsizeFields] at hsize ⊢
        have h1 := ih1 v hsafe.1 (by omega)
        have hvund : ¬ v = vundef := jsafe_ne_vundef v hsafe.1
        simp only [printFieldsR, if_neg hvund]
        cases hpf : printFieldsR fs2 with
        | nil =>
          have hz := printFieldsR_nil_size fs2 hsafe.2 hpf
          simp only [joinComma, printStr, List.length_append, List.length_cons]
          omega
        | cons b t =>
          have h3 := ih3 fs2 hsafe.2 (by omega)
          rw [hpf] at h3
          simp only [joinComma, printStr, List.length_append,
            List.length_cons] at h3 ⊢
          omega

theorem jsonParse_printVal (v : JSVal) (h : jsafe v = true) :
    jsonParse (String.mk (printVal v)) = some v := by
  have hsz : jsize v ≤ (printVal v).length :=
    (jsize_le_len (jsize v)).1 v h (le_refl _)
  have h1 := (parse_print ((printVal v).length + 1)).1 v [] h (by omega)
    (by rfl)
  rw [List.append_nil] at h1
  show (match parseVal ((printVal v).length + 1) (printVal v) with
    | some (w, []) => some w
    | _ => none) = some v
  rw [h1]

/-! ## Typed wrapper codecs

The boolean/number/object/array wrappers pass JSON.stringify and
JSON.parse as marshal/unmarshal; the map and set wrappers go through
Array.from on the way out and the Map/Set constructors on the way in;
the date wrapper uses toISOString and the Date constructor. -/

/-- JSON.stringify as a marshal function.  JSON.stringify(undefined)
returns undefined, which setItem would coerce to the string form. -/
def jsonMarshal : Marshal := fun v => (jsonStringify v).getD "undefined"

/-- JSON.parse as an unmarshal function (throws on invalid input). -/
def jsonUnmarshal : Unmarshal := jsonParse

/-- Trusted.number (and boolean/object/array): spreads the caller's
options and adds the JSON codec. -/
def numberAccessorOptions (o : AccessorOptions) : AccessorOptions :=
  { o with marshal := some jsonMarshal, unmarshal := some jsonUnmarshal }

/-- Array.from on a Map: the list of two-element entry arrays. -/
def pairsToArr : JSPairs → JSList
  | JSPairs.pnil => JSList.nil
  | JSPairs.pcons k v rest =>
    JSList.cons (varr (JSList.cons k (JSList.cons v JSList.nil)))
      (pairsToArr rest)

/-- The map wrapper's marshal: JSON.stringify(Array.from(map)).  On a
non-Map, non-array argument Array.from throws in JS; that case is out of
the modelled domain. -/
def mapMarshal : Marshal := fun v =>
  match v with
  | vmap es => jsonMarshal (varr (pairsToArr es))
  | varr xs => jsonMarshal (varr xs)
  | _ => ""

/-- Last-wins property lookup on an object (JSON.parse keeps the last
duplicate field, so parsed objects have no observable duplicates). -/
def objGet : JSFields → String → JSVal
  | JSFields.fnil, _ => vundef
  | JSFields.fcons k v rest, p =>
    match objGet rest p with
    | vundef => if k = p then v else vundef
    | w => w

/-- Reading one iterator value as a Map entry: arrays give their first
two elements (missing ones read as undefined); plain objects are indexed
at 0 and 1; anything else raises the not-an-entry-object TypeError. -/
def entryOf : JSVal → Option (JSVal × JSVal)
  | varr JSList.nil => some (vundef, vundef)
  | varr (JSList.cons k JSList.nil) => some (k, vundef)
  | varr (JSList.cons k (JSList.cons v _)) => some (k, v)
  | vobj fields => some (objGet fields "0", objGet fields "1")
  | _ => none

/-- All iterator values as Map entries. -/
def entriesOfList : JSList → Option JSPairs
  | JSList.nil => some JSPairs.pnil
  | JSList.cons x rest =>
    match entryOf x with
    | none => none
    | some (k, v) =>
      (entriesOfList rest).map (fun es => JSPairs.pcons k v es)

/-- Map.prototype.set: update the value in place when the key exists,
else append the entry. -/
def mapSet : JSPairs → JSVal → JSVal → JSPairs
  | JSPairs.pnil, k, v => JSPairs.pcons k v JSPairs.pnil
  | JSPairs.pcons k0 v0 rest, k, v =>
    if k0 = k then JSPairs.pcons k0 v rest
    else JSPairs.pcons k0 v0 (mapSet rest k v)

/-- The Map constructor's insertion loop over decoded entries. -/
def mapFromEntries (acc : JSPairs) : JSPairs → JSPairs
  | JSPairs.pnil => acc
  | JSPairs.pcons k v rest => mapFromEntries (mapSet acc k v) rest

/-- The map wrapper's unmarshal: new Map(JSON.parse(s)).  JSON.parse
result must be an array of entries (or null, which the Map constructor
accepts as empty); everything else throws. -/
def mapUnmarshal : Unmarshal := fun s =>
  match jsonParse s with
  | some (varr xs) =>
    (entriesOfList xs).map (fun es => vmap (mapFromEntries JSPairs.pnil es))
  | some vnull => some (vmap JSPairs.pnil)
  | _ => none

/-- Membership in a list of JS values (SameValueZero in the model). -/
def listHas : JSList → JSVal → Bool
  | JSList.nil, _ => false
  | JSList.cons x rest, y => x = y || listHas rest y

/-- Append a single element at the end. -/
def setAppend : JSList → JSVal → JSList
  | JSList.nil, y => JSList.cons y JSList.nil
  | JSList.cons z rest, y => JSList.cons z (setAppend rest y)

/-- Set.prototype.add: append unless already present. -/
def setAdd (acc : JSList) (x : JSVal) : JSList :=
  if listHas acc x then acc else setAppend acc x

/-- The Set constructor's insertion loop. -/
def setFromList (acc : JSList) : JSList → JSList
  | JSList.nil => acc
  | JSList.cons x rest => setFromList (setAdd acc x) rest

/-- The set wrapper's marshal: JSON.stringify(Array.from(set)). -/
def setMarshal : Marshal := fun v =>
  match v with
  | vset xs => jsonMarshal (varr xs)
  | varr xs => jsonMarshal (varr xs)
  | _ => ""

/-- One-character strings of a string's characters (iterating a string
yields them). -/
def strChars : List Char → JSList
  | [] => JSList.nil
  | c :: rest => JSList.cons (vstr (String.mk [c])) (strChars rest)

/-- The set wrapper's unmarshal: new Set(JSON.parse(s)); arrays and
strings are iterable, null gives an empty Set, numbers and booleans
throw. -/
def setUnmarshal : Unmarshal := fun s =>
  match jsonParse s with
  | some (varr xs) => some (vset (setFromList JSList.nil xs))
  | some (vstr str) => some (vset (setFromList JSList.nil (strChars str.data)))
  | some vnull => some (vset JSList.nil)
  | _ => none

/-! ## The date wrapper codec

A Date value is modelled by its observable UTC calendar fields (the
fields toISOString prints; the fields determine the timestamp and vice
versa).  Years are restricted to 0-9999, the range the plain
YYYY-MM-DDTHH:mm:ss.sssZ format covers. -/

structure DateRep where
  year : Nat
  month : Nat
  day : Nat
  hour : Nat
  minute : Nat
  second : Nat
  ms : Nat
deriving DecidableEq

/-- The calendar-field ranges of a real Date within ISO-format years
(months 1-12, days 1-31; day counts beyond the month's length cannot be
produced by a real Date and are harmless for the codec). -/
def validDate (d : DateRep) : Bool :=
  d.year ≤ 9999 && 1 ≤ d.month && d.month ≤ 12 && 1 ≤ d.day && d.day ≤ 31 &&
    d.hour ≤ 23 && d.minute ≤ 59 && d.second ≤ 59 && d.ms ≤ 999

/-- Two zero-padded decimal digits (for values up to 99). -/
def pad2 (n : Nat) : List Char := [digitChar (n / 10), digitChar (n % 10)]

/-- Three zero-padded decimal digits (for values up to 999). -/
def pad3 (n : Nat) : List Char :=
  [digitChar (n / 100), digitChar (n / 10 % 10), digitChar (n % 10)]

/-- Four zero-padded decimal digits (for values up to 9999). -/
def pad4 (n : Nat) : List Char :=
  [digitChar (n / 1000), digitChar (n / 100 % 10), digitChar (n / 10 % 10),
    digitChar (n % 10)]

/-- Date.prototype.toISOString: YYYY-MM-DDTHH:mm:ss.sssZ. -/
def toISOString (d : DateRep) : String :=
  String.mk (pad4 d.year ++ '-' :: pad2 d.month ++ '-' :: pad2 d.day ++
    'T' :: pad2 d.hour ++ ':' :: pad2 d.minute ++ ':' :: pad2 d.second ++
    '.' :: pad3 d.ms ++ ['Z'])

/-- The date wrapper's marshal: value.toISOString(). -/
def dateMarshal (d : DateRep) : String := toISOString d

/-- The Date constructor on a stored string, for the ISO format the
wrapper itself writes; any other string is out of the modelled domain
and yields an Invalid Date (none).  Out-of-range fields give an Invalid
Date, as for real ISO parsing. -/
def dateUnmarshal (s : String) : Option DateRep :=
  match s.data with
  | [y1, y2, y3, y4, '-', m1, m2, '-', d1, d2, 'T', h1, h2, ':', mi1, mi2,
      ':', s1, s2, '.', x1, x2, x3, 'Z'] =>
    if isDigitCh y1 && isDigitCh y2 && isDigitCh y3 && isDigitCh y4 &&
        isDigitCh m1 && isDigitCh m2 && isDigitCh d1 && isDigitCh d2 &&
        isDigitCh h1 && isDigitCh h2 && isDigitCh mi1 && isDigitCh mi2 &&
        isDigitCh s1 && isDigitCh s2 && isDigitCh x1 && isDigitCh x2 &&
        isDigitCh x3 then
      let dr : DateRep :=
        ⟨((digitVal y1 * 10 + digitVal y2) * 10 + digitVal y3) * 10 + digitVal y4,
          digitVal m1 * 10 + digitVal m2,
          digitVal d1 * 10 + digitVal d2,
          digitVal h1 * 10 + digitVal h2,
          digitVal mi1 * 10 + digitVal mi2,
          digitVal s1 * 10 + digitVal s2,
          (digitVal x1 * 10 + digitVal x2) * 10 + digitVal x3⟩
      if validDate dr then some dr else none
    else none
  | _ => none

theorem digitChar_isDigit (d : Nat) (h : d < 10) :
    isDigitCh (digitChar d) = true := isDigitCh_digitChar d h

theorem dateUnmarshal_dateMarshal (d : DateRep) (h : validDate d = true) :
    dateUnmarshal (dateMarshal d) = some d := by
  simp only [validDate, Bool.and_eq_true, decide_eq_true_eq] at h
  obtain ⟨⟨⟨⟨⟨⟨⟨⟨hy, hm1⟩, hm2⟩, hd1⟩, hd2⟩, hh⟩, hmi⟩, hs⟩, hms⟩
    := h
  unfold dateMarshal toISOString dateUnmarshal
  simp only [pad4, pad2, pad3, List.cons_append, List.nil_append]
  have e1 : isDigitCh (digitChar (d.year / 1000)) = true :=
    digitChar_isDigit _ (by omega)
  have e2 : isDigitCh (digitChar (d.year / 100 % 10)) = true :=
    digitChar_isDigit _ (by omega)
  have e3 : isDigitCh (digitChar (d.year / 10 % 10)) = true :=
    digitChar_isDigit _ (by omega)
  have e4 : isDigitCh (digitChar (d.year % 10)) = true :=
    digitChar_isDigit _ (by omega)
  have e5 : isDigitCh (digitChar (d.month / 10)) = true :=
    digitChar_isDigit _ (by omega)
  have e6 : isDigitCh (digitChar (d.month % 10)) = true :=
    digitChar_isDigit _ (by omega)
  have e7 : isDigitCh (digitChar (d.day / 10)) = true :=
    digitChar_isDigit _ (by omega)
  have e8 : isDigitCh (digitChar (d.day % 10)) = true :=
    digitChar_isDigit _ (by omega)
  have e9 : isDigitCh (digitChar (d.hour / 10)) = true :=
    digitChar_isDigit _ (by omega)
  have e10 : isDigitCh (digitChar (d.hour % 10)) = true :=
    digitChar_isDigit _ (by omega)
  have e11 : isDigitCh (digitChar (d.minute / 10)) = true :=
    digitChar_isDigit _ (by omega)
  have e12 : isDigitCh (digitChar (d.minute % 10)) = true :=
    digitChar_isDigit _ (by omega)
  have e13 : isDigitCh (digitChar (d.second / 10)) = true :=
    digitChar_isDigit _ (by omega)
  have e14 : isDigitCh (digitChar (d.second % 10)) = true :=
    digitChar_isDigit _ (by omega)
  have e15 : isDigitCh (digitChar (d.ms / 100)) = true :=
    digitChar_isDigit _ (by omega)
  have e16 : isDigitCh (digitChar (d.ms / 10 % 10)) = true :=
    digitChar_isDigit _ (by omega)
  have e17 : isDigitCh (digitChar (d.ms % 10)) = true :=
    digitChar_isDigit _ (by omega)
  simp only [e1, e2, e3, e4, e5, e6, e7, e8, e9, e10, e11, e12, e13, e14,
    e15, e16, e17, Bool.and_self, if_true,
    digitVal_digitChar _ (show d.year / 1000 < 10 by omega),
    digitVal_digitChar _ (show d.year / 100 % 10 < 10 by omega),
    digitVal_digitChar _ (show d.year / 10 % 10 < 10 by omega),
    digitVal_digitChar _ (show d.year % 10 < 10 by omega),
    digitVal_digitChar _ (show d.month / 10 < 10 by omega),
    digitVal_digitChar _ (show d.month % 10 < 10 by omega),
    digitVal_digitChar _ (show d.day / 10 < 10 by omega),
    digitVal_digitChar _ (show d.day % 10 < 10 by omega),
    digitVal_digitChar _ (show d.hour / 10 < 10 by omega),
    digitVal_digitChar _ (show d.hour % 10 < 10 by omega),
    digitVal_digitChar _ (show d.minute / 10 < 10 by omega),
    digitVal_digitChar _ (show d.minute % 10 < 10 by omega),
    digitVal_digitChar _ (show d.second / 10 < 10 by omega),
    digitVal_digitChar _ (show d.second % 10 < 10 by omega),
    digitVal_digitChar _ (show d.ms / 100 < 10 by omega),
    digitVal_digitChar _ (show d.ms / 10 % 10 < 10 by omega),
    digitVal_digitChar _ (show d.ms % 10 < 10 by omega)]
  have hyv : ((d.year / 1000 * 10 + d.year / 100 % 10) * 10 +
      d.year / 10 % 10) * 10 + d.year % 10 = d.year := by omega
  have hmv : d.month / 10 * 10 + d.month % 10 = d.month := by omega
  have hdv : d.day / 10 * 10 + d.day % 10 = d.day := by omega
  have hhv : d.hour / 10 * 10 + d.hour % 10 = d.hour := by omega
  have hmiv : d.minute / 10 * 10 + d.minute % 10 = d.minute := by omega
  have hsv : d.second / 10 * 10 + d.second % 10 = d.second := by omega
  have hmsv : (d.ms / 100 * 10 + d.ms / 10 % 10) * 10 + d.ms % 10 = d.ms := by
    omega
  simp only [hyv, hmv, hdv, hhv, hmiv, hsv, hmsv]
  have hvd : validDate ⟨d.year, d.month, d.day, d.hour, d.minute, d.second,
      d.ms⟩ = true := by
    simp [validDate]
    omega
  rw [if_pos hvd]

/-! ## Round-trips of the map and set wrapper codecs -/

/-- All pair components JSON-representable. -/
def jsafePairs : JSPairs → Bool
  | JSPairs.pnil => true
  | JSPairs.pcons k v rest => jsafe k && jsafe v && jsafePairs rest

/-- Whether a key occurs among the entries. -/
def pairsHasKey : JSPairs → JSVal → Bool
  | JSPairs.pnil, _ => false
  | JSPairs.pcons k0 _ rest, k => k0 = k || pairsHasKey rest k

/-- Entry keys pairwise distinct (always true of a real Map's entries). -/
def pairsKeysNodup : JSPairs → Bool
  | JSPairs.pnil => true
  | JSPairs.pcons k _ rest => !pairsHasKey rest k && pairsKeysNodup rest

/-- Concatenation of entry lists. -/
def pairsAppend : JSPairs → JSPairs → JSPairs
  | JSPairs.pnil, es => es
  | JSPairs.pcons k v rest, es => JSPairs.pcons k v (pairsAppend rest es)

/-- No key of the second entry list occurs in the first. -/
def pairsFreshAll (acc : JSPairs) : JSPairs → Bool
  | JSPairs.pnil => true
  | JSPairs.pcons k _ rest => !pairsHasKey acc k && pairsFreshAll acc rest

theorem pairsAppend_pnil : ∀ acc : JSPairs, pairsAppend acc JSPairs.pnil = acc
  | JSPairs.pnil => rfl
  | JSPairs.pcons k v rest => by
    simp [pairsAppend, pairsAppend_pnil rest]

theorem pairsAppend_assoc :
    ∀ a : JSPairs, ∀ b c : JSPairs,
      pairsAppend (pairsAppend a b) c = pairsAppend a (pairsAppend b c)
  | JSPairs.pnil, _, _ => rfl
  | JSPairs.pcons k v rest, b, c => by
    simp [pairsAppend, pairsAppend_assoc rest b c]

theorem mapSet_fresh :
    ∀ acc : JSPairs, ∀ k v : JSVal, pairsHasKey acc k = false →
      mapSet acc k v = pairsAppend acc (JSPairs.pcons k v JSPairs.pnil)
  | JSPairs.pnil, _, _, _ => rfl
  | JSPairs.pcons k0 v0 rest, k, v, h => by
    simp only [pairsHasKey, Bool.or_eq_false_iff,
      decide_eq_false_iff_not] at h
    simp [mapSet, h.1, pairsAppend, mapSet_fresh rest k v h.2]

theorem pairsHasKey_append_one :
    ∀ acc : JSPairs, ∀ k v k2 : JSVal,
      pairsHasKey (pairsAppend acc (JSPairs.pcons k v JSPairs.pnil)) k2 =
        (pairsHasKey acc k2 || k = k2)
  | JSPairs.pnil, k, v, k2 => by simp [pairsAppend, pairsHasKey]
  | JSPairs.pcons k0 v0 rest, k, v, k2 => by
    simp [pairsAppend, pairsHasKey, pairsHasKey_append_one rest k v k2,
      Bool.or_assoc]

theorem pairsFreshAll_shift :
    ∀ es2 : JSPairs, ∀ acc : JSPairs, ∀ k v : JSVal,
      pairsFreshAll acc es2 = true → pairsHasKey es2 k = false →
      pairsFreshAll (pairsAppend acc (JSPairs.pcons k v JSPairs.pnil)) es2 = true
  | JSPairs.pnil, _, _, _, _, _ => rfl
  | JSPairs.pcons k3 v3 rest3, acc, k, v, hf, hk => by
    simp only [pairsFreshAll, Bool.and_eq_true, Bool.not_eq_eq_eq_not,
      Bool.not_true] at hf ⊢
    simp only [pairsHasKey, Bool.or_eq_false_iff,
      decide_eq_false_iff_not] at hk
    refine ⟨?_, pairsFreshAll_shift rest3 acc k v hf.2 hk.2⟩
    rw [pairsHasKey_append_one]
    simp [hf.1]
    intro he
    exact absurd he.symm hk.1

theorem mapFromEntries_fresh :
    ∀ es : JSPairs, ∀ acc : JSPairs,
      pairsFreshAll acc es = true → pairsKeysNodup es = true →
      mapFromEntries acc es = pairsAppend acc es
  | JSPairs.pnil, acc, _, _ => by rw [pairsAppend_pnil]; rfl
  | JSPairs.pcons k v rest, acc, hfresh, hnd => by
    simp only [pairsFreshAll, Bool.and_eq_true, Bool.not_eq_eq_eq_not,
      Bool.not_true] at hfresh
    simp only [pairsKeysNodup, Bool.and_eq_true, Bool.not_eq_eq_eq_not,
      Bool.not_true] at hnd
    show mapFromEntries (mapSet acc k v) rest =
      pairsAppend acc (JSPairs.pcons k v rest)
    rw [mapSet_fresh acc k v hfresh.1,
      mapFromEntries_fresh rest (pairsAppend acc (JSPairs.pcons k v JSPairs.pnil))
        (pairsFreshAll_shift rest acc k v hfresh.2 hnd.1) hnd.2,
      pairsAppend_assoc]
    rfl

theorem pairsFreshAll_pnil :
    ∀ es : JSPairs, pairsFreshAll JSPairs.pnil es = true
  | JSPairs.pnil => rfl
  | JSPairs.pcons k v rest => by
    simp [pairsFreshAll, pairsHasKey, pairsFreshAll_pnil rest]

theorem mapFromEntries_nodup (es : JSPairs) (hnd : pairsKeysNodup es = true) :
    mapFromEntries JSPairs.pnil es = es := by
  rw [mapFromEntries_fresh es JSPairs.pnil (pairsFreshAll_pnil es) hnd]
  rfl

theorem jsafeList_pairsToArr :
    ∀ es : JSPairs, jsafePairs es = true → jsafeList (pairsToArr es) = true
  | JSPairs.pnil, _ => rfl
  | JSPairs.pcons k v rest, h => by
    simp only [jsafePairs, Bool.and_eq_true] at h
    simp [pairsToArr, jsafeList, jsafe, h.1.1, h.1.2,
      jsafeList_pairsToArr rest h.2]

theorem entriesOfList_pairsToArr :
    ∀ es : JSPairs, entriesOfList (pairsToArr es) = some es
  | JSPairs.pnil => rfl
  | JSPairs.pcons k v rest => by
    simp [pairsToArr, entriesOfList, entryOf, entriesOfList_pairsToArr rest]

theorem mapUnmarshal_mapMarshal (es : JSPairs) (hsafe : jsafePairs es = true)
    (hnd : pairsKeysNodup es = true) :
    mapUnmarshal (mapMarshal (vmap es)) = some (vmap es) := by
  have hstr : mapMarshal (vmap es) =
      String.mk (printVal (varr (pairsToArr es))) := rfl
  rw [hstr]
  unfold mapUnmarshal
  rw [jsonParse_printVal (varr (pairsToArr es))
    (by simpa [jsafe] using jsafeList_pairsToArr es hsafe)]
  show (entriesOfList (pairsToArr es)).map
      (fun es2 => vmap (mapFromEntries JSPairs.pnil es2)) = some (vmap es)
  rw [entriesOfList_pairsToArr es]
  simp [mapFromEntries_nodup es hnd]

/-! Set constructor semantics -/

/-- Elements pairwise distinct (always true of a real Set's elements). -/
def listNodup : JSList → Bool
  | JSList.nil => true
  | JSList.cons x rest => !listHas rest x && listNodup rest

/-- Concatenation of element lists. -/
def listAppend : JSList → JSList → JSList
  | JSList.nil, ys => ys
  | JSList.cons x rest, ys => JSList.cons x (listAppend rest ys)

/-- No element of the second list occurs in the first. -/
def listFreshAll (acc : JSList) : JSList → Bool
  | JSList.nil => true
  | JSList.cons x rest => !listHas acc x && listFreshAll acc rest

theorem listAppend_nil : ∀ acc : JSList, listAppend acc JSList.nil = acc
  | JSList.nil => rfl
  | JSList.cons x rest => by simp [listAppend, listAppend_nil rest]

theorem listAppend_assoc :
    ∀ a : JSList, ∀ b c : JSList,
      listAppend (listAppend a b) c = listAppend a (listAppend b c)
  | JSList.nil, _, _ => rfl
  | JSList.cons x rest, b, c => by
    simp [listAppend, listAppend_assoc rest b c]

theorem setAppend_fresh :
    ∀ acc : JSList, ∀ x : JSVal,
      setAppend acc x = listAppend acc (JSList.cons x JSList.nil)
  | JSList.nil, _ => rfl
  | JSList.cons z rest, x => by
    simp [setAppend, listAppend, setAppend_fresh rest x]

theorem setAdd_fresh (acc : JSList) (x : JSVal) (h : listHas acc x = false) :
    setAdd acc x = listAppend acc (JSList.cons x JSList.nil) := by
  unfold setAdd
  rw [h]
  simp only [Bool.false_eq_true, if_false]
  exact setAppend_fresh acc x

theorem listHas_append_one :
    ∀ acc : JSList, ∀ x y : JSVal,
      listHas (listAppend acc (JSList.cons x JSList.nil)) y =
        (listHas acc y || x = y)
  | JSList.nil, x, y => by simp [listAppend, listHas]
  | JSList.cons z rest, x, y => by
    simp [listAppend, listHas, listHas_append_one rest x y, Bool.or_assoc]

theorem listFreshAll_shift :
    ∀ xs2 : JSList, ∀ acc : JSList, ∀ x : JSVal,
      listFreshAll acc xs2 = true → listHas xs2 x = false →
      listFreshAll (listAppend acc (JSList.cons x JSList.nil)) xs2 = true
  | JSList.nil, _, _, _, _ => rfl
  | JSList.cons z3 rest3, acc, x, hf, hk => by
    simp only [listFreshAll, Bool.and_eq_true, Bool.not_eq_eq_eq_not,
      Bool.not_true] at hf ⊢
    simp only [listHas, Bool.or_eq_false_iff, decide_eq_false_iff_not] at hk
    refine ⟨?_, listFreshAll_shift rest3 acc x hf.2 hk.2⟩
    rw [listHas_append_one]
    simp [hf.1]
    intro he
    exact absurd he.symm hk.1

theorem setFromList_fresh :
    ∀ xs : JSList, ∀ acc : JSList,
      listFreshAll acc xs = true → listNodup xs = true →
      setFromList acc xs = listAppend acc xs
  | JSList.nil, acc, _, _ => by rw [listAppend_nil]; rfl
  | JSList.cons x rest, acc, hfresh, hnd => by
    simp only [listFreshAll, Bool.and_eq_true, Bool.not_eq_eq_eq_not,
      Bool.not_true] at hfresh
    simp only [listNodup, Bool.and_eq_true, Bool.not_eq_eq_eq_not,
      Bool.not_true] at hnd
    show setFromList (setAdd acc x) rest = listAppend acc (JSList.cons x rest)
    rw [setAdd_fresh acc x hfresh.1,
      setFromList_fresh rest (listAppend acc (JSList.cons x JSList.nil))
        (listFreshAll_shift rest acc x hfresh.2 hnd.1) hnd.2,
      listAppend_assoc]
    rfl

theorem listFreshAll_nil : ∀ xs : JSList, listFreshAll JSList.nil xs = true
  | JSList.nil => rfl
  | JSList.cons x rest => by
    simp [listFreshAll, listHas, listFreshAll_nil rest]

theorem setFromList_nodup (xs : JSList) (hnd : listNodup xs = true) :
    setFromList JSList.nil xs = xs := by
  rw [setFromList_fresh xs JSList.nil (listFreshAll_nil xs) hnd]
  rfl

/-! ## Backing-store lemmas -/

theorem getItem_setItem_self (store : Store) (k v : String) :
    (store.setItem k v).getItem k = some v := by
  induction store with
  | nil => simp [Store.setItem, Store.getItem]
  | cons p rest ih =>
    obtain ⟨k0, v0⟩ := p
    by_cases h : k0 == k
    · simp [Store.setItem, h, Store.getItem]
    · simp [Store.setItem, h, Store.getItem, ih]

theorem setItem_setItem (store : Store) (k v : String) :
    (store.setItem k v).setItem k v = store.setItem k v := by
  induction store with
  | nil => simp [Store.setItem]
  | cons p rest ih =>
    obtain ⟨k0, v0⟩ := p
    by_cases h : k0 == k
    · simp [Store.setItem, h]
    · simp [Store.setItem, h, ih]

theorem getItem_removeItem_self (store : Store) (k : String) :
    (store.removeItem k).getItem k = none := by
  induction store with
  | nil => rfl
  | cons p rest ih =>
    obtain ⟨k0, v0⟩ := p
    by_cases h : k0 == k
    · simp [Store.removeItem, h, ih]
    · simp [Store.removeItem, h, Store.getItem, ih]

theorem removeItem_removeItem (store : Store) (k : String) :
    (store.removeItem k).removeItem k = store.removeItem k := by
  induction store with
  | nil => rfl
  | cons p rest ih =>
    obtain ⟨k0, v0⟩ := p
    by_cases h : k0 == k
    · simp [Store.removeItem, h, ih]
    · simp [Store.removeItem, h, ih]

theorem contains_filter_ne (l : List String) (a : String) :
    (l.filter (fun k2 => k2 != a)).contains a = false := by
  induction l with
  | nil => rfl
  | cons b t ih =>
    by_cases h : b == a
    · simp only [List.filter, bne, h, Bool.not_true]
      exact ih
    · simp only [List.filter, bne, h, Bool.not_false]
      simp only [List.contains_cons, Bool.or_eq_false_iff]
      refine ⟨?_, ih⟩
      simp only [beq_eq_false_iff_ne, ne_eq]
      intro he
      exact h (beq_iff_eq.mpr he.symm)

theorem setUnmarshal_setMarshal (xs : JSList) (hsafe : jsafeList xs = true)
    (hnd : listNodup xs = true) :
    setUnmarshal (setMarshal (vset xs)) = some (vset xs) := by
  have hstr : setMarshal (vset xs) = String.mk (printVal (varr xs)) := rfl
  rw [hstr]
  unfold setUnmarshal
  rw [jsonParse_printVal (varr xs) (by simpa [jsafe] using hsafe)]
  show some (vset (setFromList JSList.nil xs)) = some (vset xs)
  rw [setFromList_nodup xs hnd]

/-! ## Evaluation helpers for concrete scenarios -/

theorem natToChars42 : natToChars 42 = ['4', '2'] := by
  rw [natToChars, natToChars]
  decide

theorem natToChars0 : natToChars 0 = ['0'] := by
  rw [natToChars]
  decide

theorem jsonMarshal42 : jsonMarshal (vnum 42) = "42" := by
  show String.mk (natToChars (Int.toNat 42)) = "42"
  rw [show Int.toNat 42 = 42 from rfl, natToChars42]

theorem jsonMarshal0 : jsonMarshal (vnum 0) = "0" := by
  show String.mk (natToChars (Int.toNat 0)) = "0"
  rw [show Int.toNat 0 = 0 from rfl, natToChars0]

/-- Whether accessor creation returned an accessor (no exception). -/
def isOkB : Except CreateError (Config × TrustedState) → Bool
  | Except.ok _ => true
  | Except.error _ => false

/-! ## Claim scenarios and theorems -/

/-- The options of the C1 scenario: Trusted.number with key test and
default 42 on a fresh root (the number wrapper adds the JSON codec). -/
def c1Options : AccessorOptions :=
  numberAccessorOptions { key := "test", defaultValue := vnum 42 }

/-- The configuration captured by the C1 accessor. -/
def c1Config : Config :=
  ⟨"test", vnum 42, none, some jsonMarshal, some jsonUnmarshal⟩

/-- C1: on a number accessor with default 42 over an empty store, the
claim (and the repository test named Trusted numbers work with 0) wants
set(0) to write the string 0 and get() to then return 0.  The current
set closure (setOp2, guarded by marshal and value) drops the write of
the falsy 0 and warns, after which get() repairs to 42: this theorem
evaluates the code at the failing input, and also shows the earlier set
closure (setOp1) satisfies the claim. -/
theorem c1_number_set_zero :
    createAccessor ⟨"", []⟩ c1Options = Except.ok (c1Config, ⟨"", ["test"]⟩) ∧
    setOp2 c1Config [] (vnum 0) = some [] ∧
    getOp c1Config [] = (vnum 42, [("test", "42")]) ∧
    setOp1 c1Config [] (vnum 0) = some [("test", "0")] ∧
    getOp c1Config [("test", "0")] = (vnum 0, [("test", "0")]) := by
  refine ⟨rfl, rfl, ?_, ?_, ?_⟩
  · show (vnum 42, Store.setItem [] "test" (jsonMarshal (vnum 42))) =
      (vnum 42, [("test", "42")])
    rw [jsonMarshal42]
    rfl
  · show some (Store.setItem [] "test" (jsonMarshal (vnum 0))) =
      some [("test", "0")]
    rw [jsonMarshal0]
    rfl
  · decide

/-- The C2 counterexample configuration: a validator that rejects the
empty string, no marshal, no unmarshal, no default. -/
def c2Config : Config :=
  ⟨"test", vundef, some (fun v => some (v != vstr "")), none, none⟩

/-- C2 counterexample: the claim as stated fails on the current set
closure: the validator rejects the empty string, yet set writes it to
the store verbatim (the value-truthiness guard skips the validation
gate and the falsy string falls into the typeof-string branch). -/
theorem c2_counterexample :
    (fun v => some (v != vstr "") : Validator) (vstr "") = some false ∧
    setOp2 c2Config [] (vstr "") = some [("test", "")] ∧
    Store.getItem [("test", "")] "test" ≠ Store.getItem [] "test" := by
  refine ⟨rfl, rfl, by decide⟩

/-- A value that is falsy and different from the empty string is not a
string at all (the empty string is the only falsy JS string). -/
theorem falsy_ne_empty_not_string (v : JSVal) (ht : truthy v = false)
    (hne : ¬ v = vstr "") : isString v = false := by
  cases v with
  | vstr s =>
    simp only [truthy, bne_eq_false_iff_eq] at ht
    exact absurd (by rw [ht]) hne
  | vundef => rfl
  | vnull => rfl
  | vbool b => rfl
  | vnum n => rfl
  | varr xs => simp [truthy] at ht
  | vobj fs => simp [truthy] at ht
  | vmap es => simp [truthy] at ht
  | vset xs => simp [truthy] at ht

/-- C2 amended: for every value the validator rejects, the earlier set
closure leaves the store unchanged; the current set closure leaves it
unchanged for every rejected value except the empty string (the empty
string bypasses the gate and is written verbatim, as the counterexample
shows; other falsy rejected values still degrade to the warn no-op). -/
theorem c2_validation_gate (c : Config) (store : Store) (v : JSVal)
    (f : Validator) (hval : c.validate = some f) (hrej : f v = some false) :
    setOp1 c store v = some store ∧
    (¬ v = vstr "" → setOp2 c store v = some store) := by
  constructor
  · simp [setOp1, hval, hrej]
  · intro hne
    by_cases ht : truthy v
    · simp [setOp2, hval, ht, hrej]
    · have ht2 : truthy v = false := by simpa using ht
      have hns : isString v = false := falsy_ne_empty_not_string v ht2 hne
      rcases hm : c.marshal with _ | m
      · simp [setOp2, setWrite2, hval, ht2, hm, hns]
      · simp [setOp2, setWrite2, hval, ht2, hm, hns]

/-- A configuration whose validator rejects every value. -/
def cRejectAll : Config :=
  ⟨"test", vundef, some (fun _ => some false), none, none⟩

theorem c2_validation_gate_witness :
    setOp1 cRejectAll [("test", "x")] (vstr "hello") = some [("test", "x")] ∧
    (¬ vstr "hello" = vstr "" →
      setOp2 cRejectAll [("test", "x")] (vstr "hello") = some [("test", "x")]) := by
  have h := c2_validation_gate cRejectAll [("test", "x")] (vstr "hello")
    (fun _ => some false) rfl rfl
  exact h

/-- The C3 counterexample options: a falsy default (the empty string)
together with a validator that rejects it. -/
def c3Options : AccessorOptions :=
  { key := "test", defaultValue := vstr "",
    validate := some (fun _ => some false) }

/-- C3 counterexample: the claim as stated fails: the default value is
present and fails the effective validator, yet accessor creation
succeeds, because the invalid-default check is guarded by the
truthiness of the default and the empty string is falsy. -/
theorem c3_counterexample :
    (fun _ => some false : Validator) (vstr "") = some false ∧
    isOkB (createAccessor ⟨"", []⟩ c3Options) = true := by
  exact ⟨rfl, rfl⟩

/-- C3 amended: if the default value is truthy, an effective validator
exists, and the default fails it, then accessor creation throws
InvalidDefaultValueError before any accessor is returned (falsy
defaults bypass the check, as the counterexample shows). -/
theorem c3_invalid_default (st : TrustedState) (o : AccessorOptions)
    (f : Validator) (ht : truthy o.defaultValue = true)
    (hv : effectiveValidate o = some f)
    (hrej : f o.defaultValue = some false) :
    createAccessor st o = Except.error CreateError.invalidDefault := by
  simp [createAccessor, configCheckError, ht, hv, hrej]

theorem c3_invalid_default_witness :
    createAccessor ⟨"", []⟩
      { key := "w", defaultValue := vstr "hello country",
        validate := some (fun _ => some false) } =
      Except.error CreateError.invalidDefault := by
  exact c3_invalid_default ⟨"", []⟩ _ (fun _ => some false) rfl rfl rfl

/-- Any number of repeated creations, threading the root state; true
when none of them throws. -/
def createSkipN : Nat → TrustedState → AccessorOptions → Bool
  | 0, _, _ => true
  | n + 1, st, o =>
    match createAccessor st o with
    | Except.error _ => false
    | Except.ok (_, st2) => createSkipN n st2 o

/-- C4: with a valid configuration, a first non-skip creation claims the
key; a second non-skip creation for the same resolved key fails with
DuplicateKeyError; with skipRegistration the root state is untouched
and any number of creations never fails; and every successful creation
preserves the at-most-one-claim-per-key invariant of the registry. -/
theorem c4_registry_uniqueness :
    (∀ st o, configCheckError o = none → o.skipRegistration = false →
      st.registeredKeys.contains (st.nsp ++ o.key) = false →
      createAccessor st o = Except.ok
        (⟨st.nsp ++ o.key, o.defaultValue, effectiveValidate o, o.marshal,
          o.unmarshal⟩,
         ⟨st.nsp, (st.nsp ++ o.key) :: st.registeredKeys⟩)) ∧
    (∀ st o, configCheckError o = none → o.skipRegistration = false →
      st.registeredKeys.contains (st.nsp ++ o.key) = true →
      createAccessor st o = Except.error CreateError.duplicateKey) ∧
    (∀ st o o2 c st2, configCheckError o = none → configCheckError o2 = none →
      o.skipRegistration = false → o2.skipRegistration = false →
      o2.key = o.key →
      createAccessor st o = Except.ok (c, st2) →
      createAccessor st2 o2 = Except.error CreateError.duplicateKey) ∧
    (∀ st o, configCheckError o = none → o.skipRegistration = true →
      createAccessor st o = Except.ok
        (⟨st.nsp ++ o.key, o.defaultValue, effectiveValidate o, o.marshal,
          o.unmarshal⟩, st)) ∧
    (∀ n st o, configCheckError o = none → o.skipRegistration = true →
      createSkipN n st o = true) ∧
    (∀ st o c st2, createAccessor st o = Except.ok (c, st2) →
      st.registeredKeys.Nodup → st2.registeredKeys.Nodup) := by
  have hcontains_false : ∀ (l : List String) (a : String),
      l.contains a = false → a ∉ l := by
    intro l a h hm
    have h2 := List.elem_eq_true_of_mem hm
    rw [List.contains, h2] at h
    exact absurd h (by simp)
  have hok : ∀ st o, configCheckError o = none → o.skipRegistration = false →
      st.registeredKeys.contains (st.nsp ++ o.key) = false →
      createAccessor st o = Except.ok
        (⟨st.nsp ++ o.key, o.defaultValue, effectiveValidate o, o.marshal,
          o.unmarshal⟩,
         ⟨st.nsp, (st.nsp ++ o.key) :: st.registeredKeys⟩) := by
    intro st o hconf hskip hfree
    unfold createAccessor
    rw [hconf, hskip]
    simp only [Bool.false_eq_true, if_false, hfree]
  have hdup : ∀ st o, configCheckError o = none → o.skipRegistration = false →
      st.registeredKeys.contains (st.nsp ++ o.key) = true →
      createAccessor st o = Except.error CreateError.duplicateKey := by
    intro st o hconf hskip hhit
    unfold createAccessor
    rw [hconf, hskip]
    simp only [Bool.false_eq_true, if_false, hhit, if_true]
  have hskipok : ∀ st o, configCheckError o = none → o.skipRegistration = true →
      createAccessor st o = Except.ok
        (⟨st.nsp ++ o.key, o.defaultValue, effectiveValidate o, o.marshal,
          o.unmarshal⟩, st) := by
    intro st o hconf hskip
    unfold createAccessor
    rw [hconf, hskip]
    simp only [if_true]
  refine ⟨hok, hdup, ?_, hskipok, ?_, ?_⟩
  · intro st o o2 c st2 hc1 hc2 hs1 hs2 hkey hcreate
    rcases hfree : st.registeredKeys.contains (st.nsp ++ o.key) with _ | _
    · rw [hok st o hc1 hs1 hfree] at hcreate
      have h0 := Except.ok.inj hcreate
      have hst2 : (⟨st.nsp, (st.nsp ++ o.key) :: st.registeredKeys⟩ :
          TrustedState) = st2 := congrArg Prod.snd h0
      apply hdup st2 o2 hc2 hs2
      rw [← hst2, hkey]
      simp
    · rw [hdup st o hc1 hs1 hfree] at hcreate
      exact absurd hcreate (by simp)
  · intro n
    induction n with
    | zero => intro st o _ _; rfl
    | succ m ih =>
      intro st o hconf hskip
      show (match createAccessor st o with
        | Except.error _ => false
        | Except.ok (_, st2) => createSkipN m st2 o) = true
      rw [hskipok st o hconf hskip]
      exact ih st o hconf hskip
  · intro st o c st2 hcreate hnd
    unfold createAccessor at hcreate
    rcases hconf : configCheckError o with _ | e
    · rw [hconf] at hcreate
      simp only at hcreate
      rcases hskip : o.skipRegistration with _ | _
      · rw [hskip] at hcreate
        simp only [Bool.false_eq_true, if_false] at hcreate
        rcases hfree : st.registeredKeys.contains (st.nsp ++ o.key) with _ | _
        · rw [hfree] at hcreate
          simp only [Bool.false_eq_true, if_false] at hcreate
          have h0 := Except.ok.inj hcreate
          have hst2 : (⟨st.nsp, (st.nsp ++ o.key) :: st.registeredKeys⟩ :
              TrustedState) = st2 := congrArg Prod.snd h0
          rw [← hst2]
          exact List.Nodup.cons
            (hcontains_false st.registeredKeys (st.nsp ++ o.key) hfree) hnd
        · rw [hfree] at hcreate
          simp at hcreate
      · rw [hskip] at hcreate
        simp only [if_true] at hcreate
        have h0 := Except.ok.inj hcreate
        have hst2 : st = st2 := congrArg Prod.snd h0
        rw [← hst2]
        exact hnd
    · rw [hconf] at hcreate
      exact absurd hcreate (by simp)

theorem c4_registry_uniqueness_witness :
    (createAccessor ⟨"", []⟩ { key := "k" } = Except.ok
      (⟨"" ++ "k", vundef, none, none, none⟩, ⟨"", ["" ++ "k"]⟩)) ∧
    (createAccessor ⟨"", ["k"]⟩ { key := "k" } =
      Except.error CreateError.duplicateKey) ∧
    (createAccessor ⟨"", []⟩ { key := "k", skipRegistration := true } =
      Except.ok (⟨"" ++ "k", vundef, none, none, none⟩, ⟨"", []⟩)) ∧
    (createSkipN 3 ⟨"", []⟩ { key := "k", skipRegistration := true } = true) ∧
    (∀ c st2, createAccessor ⟨"", []⟩ { key := "k" } = Except.ok (c, st2) →
      ([] : List String).Nodup → st2.registeredKeys.Nodup) := by
  obtain ⟨h1, h2, h3, h4, h5, h6⟩ := c4_registry_uniqueness
  refine ⟨?_, ?_, ?_, ?_, ?_⟩
  · exact h1 ⟨"", []⟩ { key := "k" } rfl rfl rfl
  · exact h2 ⟨"", ["k"]⟩ { key := "k" } rfl rfl (by decide)
  · exact h4 ⟨"", []⟩ { key := "k", skipRegistration := true } rfl rfl
  · exact h5 3 ⟨"", []⟩ { key := "k", skipRegistration := true } rfl rfl
  · intro c st2 hc hnd
    exact h6 ⟨"", []⟩ { key := "k" } c st2 hc hnd

/-- C5: on an accessor with a validator, no default and no codec, when
the store holds a string at the key that the validator rejects, get
returns undefined and deletes the entry. -/
theorem c5_invalid_removed (c : Config) (f : Validator) (store : Store)
    (s : String) (hval : c.validate = some f) (hdv : c.defaultValue = vundef)
    (hm : c.marshal = none) (hu : c.unmarshal = none)
    (hitem : store.getItem c.key = some s) (hrej : f (vstr s) = some false) :
    getOp c store = (vundef, store.removeItem c.key) := by
  have hrv : readValue c s = none := by
    simp [readValue, validatePasses, hu, hval, hrej]
  unfold getOp
  rw [hitem]
  show (match readValue c s with
    | some v => (v, store)
    | none => (c.defaultValue, repairStore c store)) =
    (vundef, store.removeItem c.key)
  rw [hrv]
  show (c.defaultValue, repairStore c store) = (vundef, store.removeItem c.key)
  unfold repairStore
  rw [hm, hdv]
  simp [isString]

theorem c5_invalid_removed_witness :
    getOp ⟨"test", vundef, some (fun v => some (v == vstr "hello world")),
        none, none⟩ [("test", "hello country")] =
      (vundef, Store.removeItem [("test", "hello country")] "test") := by
  exact c5_invalid_removed _ (fun v => some (v == vstr "hello world"))
    [("test", "hello country")] "hello country" rfl rfl rfl rfl rfl (by decide)

/-- C6: remove deletes the backing-store entry and touches no registry
state, so a later non-skip creation for the key still fails with
DuplicateKeyError; unregister releases the key from the registry and
touches no store state, so a later non-skip creation for the key
succeeds. -/
theorem c6_remove_unregister (st : TrustedState) (c : Config) (store : Store)
    (o2 : AccessorOptions) (hkey : st.nsp ++ o2.key = c.key)
    (hconf : configCheckError o2 = none) (hskip : o2.skipRegistration = false) :
    (removeOp c store = store.removeItem c.key) ∧
    (st.registeredKeys.contains c.key = true →
      createAccessor st o2 = Except.error CreateError.duplicateKey) ∧
    ((unregisterOp st c).nsp = st.nsp) ∧
    ((unregisterOp st c).registeredKeys =
      st.registeredKeys.filter (fun k2 => k2 != c.key)) ∧
    (createAccessor (unregisterOp st c) o2 = Except.ok
      (⟨c.key, o2.defaultValue, effectiveValidate o2, o2.marshal,
        o2.unmarshal⟩,
       ⟨st.nsp, c.key :: st.registeredKeys.filter (fun k2 => k2 != c.key)⟩)) := by
  refine ⟨rfl, ?_, rfl, rfl, ?_⟩
  · intro hhit
    have hhit2 : c.key ∈ st.registeredKeys := by
      rw [List.contains] at hhit
      exact List.mem_of_elem_eq_true hhit
    unfold createAccessor
    rw [hconf, hskip, hkey]
    simp [hhit2]
  · unfold createAccessor
    simp only [unregisterOp]
    rw [hconf, hskip, hkey]
    simp [contains_filter_ne]

theorem c6_remove_unregister_witness :
    (removeOp ⟨"test", vundef, none, none, none⟩ [("test", "v")] =
      Store.removeItem [("test", "v")] "test") ∧
    (["test"].contains "test" = true →
      createAccessor ⟨"", ["test"]⟩ { key := "test" } =
        Except.error CreateError.duplicateKey) ∧
    ((unregisterOp ⟨"", ["test"]⟩ ⟨"test", vundef, none, none, none⟩).nsp
      = "") ∧
    ((unregisterOp ⟨"", ["test"]⟩
        ⟨"test", vundef, none, none, none⟩).registeredKeys =
      ["test"].filter (fun k2 => k2 != "test")) ∧
    (createAccessor (unregisterOp ⟨"", ["test"]⟩
        ⟨"test", vundef, none, none, none⟩) { key := "test" } = Except.ok
      (⟨"test", vundef, none, none, none⟩,
       ⟨"", "test" :: ["test"].filter (fun k2 => k2 != "test")⟩)) := by
  exact c6_remove_unregister ⟨"", ["test"]⟩ ⟨"test", vundef, none, none, none⟩
    [("test", "v")] { key := "test" } rfl rfl rfl

/-- The string (if any) the catch block of get writes to the store. -/
def repairWrite (c : Config) : Option String :=
  match c.marshal, truthy c.defaultValue with
  | some m, true => some (m c.defaultValue)
  | _, _ =>
    if isString c.defaultValue then some (asString c.defaultValue) else none

theorem repairStore_eq (c : Config) (store : Store) :
    repairStore c store =
      match repairWrite c with
      | some w => store.setItem c.key w
      | none =>
        if c.defaultValue == vundef then store.removeItem c.key else store := by
  unfold repairStore repairWrite
  rcases hm : c.marshal with _ | m
  · by_cases hs : isString c.defaultValue <;> simp [hs]
  · rcases ht : truthy c.defaultValue with _ | _
    · by_cases hs : isString c.defaultValue <;> simp [hs]
    · simp

theorem repairStore_some (c : Config) (store : Store) (w : String)
    (hw : repairWrite c = some w) :
    repairStore c store = store.setItem c.key w := by
  rw [repairStore_eq, hw]

theorem repairStore_none_undef (c : Config) (store : Store)
    (hw : repairWrite c = none) (hdv : c.defaultValue = vundef) :
    repairStore c store = store.removeItem c.key := by
  rw [repairStore_eq, hw]
  simp [hdv]

theorem repairStore_none_def (c : Config) (store : Store)
    (hw : repairWrite c = none) (hdv : ¬ c.defaultValue = vundef) :
    repairStore c store = store := by
  rw [repairStore_eq, hw]
  simp [hdv]

theorem getOp_invalid (c : Config) (store : Store)
    (h : (store.getItem c.key).bind (readValue c) = none) :
    getOp c store = (c.defaultValue, repairStore c store) := by
  unfold getOp
  rcases hg : store.getItem c.key with _ | s
  · rfl
  · rw [hg] at h
    have hr : readValue c s = none := by simpa using h
    show (match readValue c s with
      | some v => (v, store)
      | none => (c.defaultValue, repairStore c store)) =
      (c.defaultValue, repairStore c store)
    rw [hr]

theorem getOp_valid (c : Config) (store : Store) (s : String) (v : JSVal)
    (hg : store.getItem c.key = some s) (hr : readValue c s = some v) :
    getOp c store = (v, store) := by
  unfold getOp
  rw [hg]
  show (match readValue c s with
    | some w => (w, store)
    | none => (c.defaultValue, repairStore c store)) = (v, store)
  rw [hr]

/-- C7 counterexample: a configuration whose marshal does not invert to
the default value (marshal constantly A, no unmarshal): two consecutive
gets over an empty store return the default hello and then the repaired
entry A, two different values, so the claim as stated fails. -/
def c7Config : Config :=
  ⟨"test", vstr "hello", none, some (fun _ => "A"), none⟩

theorem c7_counterexample :
    Store.getItem [] "test" = none ∧
    getOp c7Config [] = (vstr "hello", [("test", "A")]) ∧
    getOp c7Config [("test", "A")] = (vstr "A", [("test", "A")]) ∧
    ¬ (vstr "A") = (vstr "hello") := by
  exact ⟨rfl, rfl, rfl, by decide⟩

/-- C7 amended: for every accessor and every initial store in which the
entry at the key is absent or invalid, two consecutive gets return the
default value and the store after the second call equals the store
after the first, provided that decoding any string the repair writes
yields the default value whenever it passes validation (true of all the
typed wrappers, whose unmarshal inverts their marshal; without this
proviso the two calls can return different values, as the
counterexample shows).  The store-state part needs no proviso beyond
the repair-decode condition on the returned value. -/
theorem c7_idempotent_repair (c : Config) (store : Store)
    (hbad : (store.getItem c.key).bind (readValue c) = none)
    (hrepair : ∀ w, repairWrite c = some w → ∀ v, readValue c w = some v →
      v = c.defaultValue) :
    (getOp c store).1 = c.defaultValue ∧
    (getOp c (getOp c store).2).1 = c.defaultValue ∧
    (getOp c (getOp c store).2).2 = (getOp c store).2 := by
  have h1 : getOp c store = (c.defaultValue, repairStore c store) :=
    getOp_invalid c store hbad
  rw [h1]
  have h2 : getOp c (repairStore c store) =
      (c.defaultValue, repairStore c store) := by
    rcases hw : repairWrite c with _ | w
    · by_cases hdv : c.defaultValue = vundef
      · rw [repairStore_none_undef c store hw hdv]
        have habs : ((store.removeItem c.key).getItem c.key).bind
            (readValue c) = none := by
          rw [getItem_removeItem_self]
          rfl
        rw [getOp_invalid c _ habs,
          repairStore_none_undef c _ hw hdv, removeItem_removeItem]
      · rw [repairStore_none_def c store hw hdv, getOp_invalid c store hbad,
          repairStore_none_def c store hw hdv]
    · rw [repairStore_some c store w hw]
      rcases hr : readValue c w with _ | v
      · have habs : (((store.setItem c.key w).getItem c.key).bind
            (readValue c)) = none := by
          rw [getItem_setItem_self]
          simpa using hr
        rw [getOp_invalid c _ habs,
          repairStore_some c _ w hw, setItem_setItem]
      · have hv : v = c.defaultValue := hrepair w hw v hr
        rw [getOp_valid c (store.setItem c.key w) w v
          (getItem_setItem_self store c.key w) hr, hv]
  rw [h2]
  exact ⟨rfl, rfl, rfl⟩

/-- The C7 witness configuration: the number wrapper's codec with
default 42 (unmarshal inverts marshal on the default). -/
def c7NumConfig : Config :=
  ⟨"test", vnum 42, none, some jsonMarshal, some jsonUnmarshal⟩

theorem c7_idempotent_repair_witness :
    (getOp c7NumConfig []).1 = vnum 42 ∧
    (getOp c7NumConfig (getOp c7NumConfig []).2).1 = vnum 42 ∧
    (getOp c7NumConfig (getOp c7NumConfig []).2).2 =
      (getOp c7NumConfig []).2 := by
  have hrw : repairWrite c7NumConfig = some "42" := by
    show some (jsonMarshal (vnum 42)) = some "42"
    rw [jsonMarshal42]
  have h := c7_idempotent_repair c7NumConfig [] rfl ?hrep
  · exact h
  case hrep =>
    intro w hw v hv
    rw [hrw] at hw
    have hw2 : w = "42" := by
      injection hw with h0
      exact h0.symm
    rw [hw2] at hv
    have hval : readValue c7NumConfig "42" = some (vnum 42) := by decide
    rw [hval] at hv
    injection hv with h1
    exact h1.symm

/-- A set accessor configuration with no validator: every value is
accepted by the (absent) validation step. -/
def c8SetConfig : Config :=
  ⟨"test", vundef, none, some setMarshal, some setUnmarshal⟩

/-- C8 counterexample: a Set containing undefined is a value of the set
wrapper's type and passes the (absent) validator, but
JSON.stringify(Array.from(s)) renders the undefined element as null, so
unmarshal(marshal(s)) is the Set containing null, not s. -/
theorem c8_counterexample :
    validatePasses c8SetConfig (vset (JSList.cons vundef JSList.nil)) = true ∧
    setMarshal (vset (JSList.cons vundef JSList.nil)) = "[null]" ∧
    setUnmarshal "[null]" = some (vset (JSList.cons vnull JSList.nil)) ∧
    ¬ (vset (JSList.cons vnull JSList.nil)) =
      (vset (JSList.cons vundef JSList.nil)) := by
  exact ⟨rfl, rfl, rfl, by decide⟩

/-- C8 amended: the round-trip unmarshal(marshal(v)) = v holds for the
object and array wrappers on JSON-representable contents, for the map
wrapper on maps with JSON-representable entries, for the set wrapper on
sets with JSON-representable elements, and for the date wrapper on
valid dates; it is not validator acceptance but JSON representability
of the contents (no undefined, no nested Map/Set) that delimits the
guarantee, as the counterexample shows. -/
theorem c8_wrapper_roundtrip :
    (∀ fs : JSFields, jsafeFields fs = true →
      jsonUnmarshal (jsonMarshal (vobj fs)) = some (vobj fs)) ∧
    (∀ xs : JSList, jsafeList xs = true →
      jsonUnmarshal (jsonMarshal (varr xs)) = some (varr xs)) ∧
    (∀ es : JSPairs, jsafePairs es = true → pairsKeysNodup es = true →
      mapUnmarshal (mapMarshal (vmap es)) = some (vmap es)) ∧
    (∀ xs : JSList, jsafeList xs = true → listNodup xs = true →
      setUnmarshal (setMarshal (vset xs)) = some (vset xs)) ∧
    (∀ d : DateRep, validDate d = true →
      dateUnmarshal (dateMarshal d) = some d) := by
  refine ⟨?_, ?_, mapUnmarshal_mapMarshal, setUnmarshal_setMarshal,
    dateUnmarshal_dateMarshal⟩
  · intro fs h
    exact jsonParse_printVal (vobj fs) h
  · intro xs h
    exact jsonParse_printVal (varr xs) h

theorem c8_wrapper_roundtrip_witness :
    jsonUnmarshal (jsonMarshal
      (vobj (JSFields.fcons "a" (vbool true) JSFields.fnil))) =
      some (vobj (JSFields.fcons "a" (vbool true) JSFields.fnil)) ∧
    jsonUnmarshal (jsonMarshal (varr (JSList.cons vnull JSList.nil))) =
      some (varr (JSList.cons vnull JSList.nil)) ∧
    mapUnmarshal (mapMarshal
      (vmap (JSPairs.pcons (vstr "k") (vbool false) JSPairs.pnil))) =
      some (vmap (JSPairs.pcons (vstr "k") (vbool false) JSPairs.pnil)) ∧
    setUnmarshal (setMarshal (vset (JSList.cons (vstr "x") JSList.nil))) =
      some (vset (JSList.cons (vstr "x") JSList.nil)) ∧
    dateUnmarshal (dateMarshal ⟨2020, 1, 2, 3, 4, 5, 6⟩) =
      some ⟨2020, 1, 2, 3, 4, 5, 6⟩ := by
  exact ⟨c8_wrapper_roundtrip.1 _ (by decide),
    c8_wrapper_roundtrip.2.1 _ (by decide),
    c8_wrapper_roundtrip.2.2.1 _ (by decide) (by decide),
    c8_wrapper_roundtrip.2.2.2.1 _ (by decide) (by decide),
    c8_wrapper_roundtrip.2.2.2.2 _ (by decide)⟩

/-- C9: a stored empty string is treated exactly like an absent entry:
the item check item-is-falsy throws before unmarshal runs, so get
returns the default value and applies the catch-block repair writes —
the same writes (marshal of the default, the default itself when a
string, or removal of the key) it applies when the key is absent, as
the second conjunct over the store with the entry removed shows. -/
theorem c9_empty_string_absent (c : Config) (store : Store)
    (h : store.getItem c.key = some "") :
    getOp c store = (c.defaultValue, repairStore c store) ∧
    getOp c (store.removeItem c.key) =
      (c.defaultValue, repairStore c (store.removeItem c.key)) := by
  constructor
  · apply getOp_invalid
    rw [h]
    rfl
  · apply getOp_invalid
    rw [getItem_removeItem_self]
    rfl

def c9Config : Config := ⟨"test", vnum 42, none, none, none⟩

theorem c9_empty_string_absent_witness :
    getOp c9Config [("test", "")] =
      (vnum 42, repairStore c9Config [("test", "")]) ∧
    getOp c9Config (Store.removeItem [("test", "")] "test") =
      (vnum 42, repairStore c9Config
        (Store.removeItem [("test", "")] "test")) :=
  c9_empty_string_absent c9Config [("test", "")] rfl

/-- C10: when the stored string is nonempty and either the unmarshal
function throws on it, or the validator throws on the decoded value,
get absorbs the exception in its catch block: it returns the default
value and performs the repair writes, propagating nothing.  (Throwing
functions are modelled as returning none.) -/
theorem c10_exception_absorbed (c : Config) (store : Store) (s : String)
    (hg : store.getItem c.key = some s) (hne : ¬ s = "") :
    (∀ u, c.unmarshal = some u → u s = none →
      getOp c store = (c.defaultValue, repairStore c store)) ∧
    (∀ f v, c.validate = some f →
      (match c.unmarshal with
        | some u => u s
        | none => some (vstr s)) = some v →
      f v = none →
      getOp c store = (c.defaultValue, repairStore c store)) := by
  have h0 : (s == "") = false := by simp [hne]
  constructor
  · intro u hu hus
    apply getOp_invalid
    rw [hg]
    have hr : readValue c s = none := by
      unfold readValue
      rw [h0, hu]
      show (match u s with
        | none => none
        | some v => if validatePasses c v = true then some v else none) = none
      rw [hus]
    simpa using hr
  · intro f v hf hdec hthrow
    apply getOp_invalid
    rw [hg]
    have hr : readValue c s = none := by
      unfold readValue
      rw [h0]
      rcases hu : c.unmarshal with _ | u
      · rw [hu] at hdec
        have hv : vstr s = v := by
          injection hdec
        show (if validatePasses c (vstr s) = true then some (vstr s) else none)
          = none
        rw [hv]
        simp [validatePasses, hf, hthrow]
      · rw [hu] at hdec
        have hdec2 : u s = some v := hdec
        show (match u s with
          | none => none
          | some w => if validatePasses c w = true then some w else none)
          = none
        rw [hdec2]
        show (if validatePasses c v = true then some v else none) = none
        simp [validatePasses, hf, hthrow]
    simpa using hr

def c10ConfigU : Config :=
  ⟨"test", vnum 42, none, none, some (fun _ => none)⟩

def c10ConfigV : Config :=
  ⟨"test", vnum 42, some (fun _ => none), none, none⟩

theorem c10_exception_absorbed_witness :
    getOp c10ConfigU [("test", "bad")] =
      (vnum 42, repairStore c10ConfigU [("test", "bad")]) ∧
    getOp c10ConfigV [("test", "bad")] =
      (vnum 42, repairStore c10ConfigV [("test", "bad")]) := by
  constructor
  · exact (c10_exception_absorbed c10ConfigU [("test", "bad")] "bad"
      rfl (by decide)).1 (fun _ => none) rfl rfl
  · exact (c10_exception_absorbed c10ConfigV [("test", "bad")] "bad"
      rfl (by decide)).2 (fun _ => none) (vstr "bad") rfl rfl rfl

end Trusted
